import Mathlib

/-!
Verification of the rantanplan Spanish scansion engine (files `core.py`,
`rhymes.py`, `structures.py`).  The development is a shallow embedding of the
source: Python strings are modelled as `List Char`, Python dictionaries with
optional keys are modelled as structures with `Option` fields and association
lists, and Python exceptions are modelled with `Except PyExn`.  The regular
expressions of the source are translated into character-level matching
functions that follow Python's leftmost / greedy / lazy backtracking semantics
on the newline-free inputs the program processes (Python's `.` does not match
a newline; theorems about words therefore exclude newline characters).
-/

set_option maxHeartbeats 2000000

/-- Python strings, modelled as lists of characters. -/
abbrev PyStr := List Char

/-- Helper turning a Lean string literal into a `PyStr`. -/
def pys (s : String) : PyStr := s.data

/-- Python exceptions raised by the embedded code. -/
inductive PyExn where
  | keyError
  | indexError
  | valueError
  deriving Repr, DecidableEq

/-- Python `str.lower` restricted to the alphabet used by the program
(ASCII letters plus the accented letters appearing in the source). -/
def pyLower (c : Char) : Char :=
  if 'A' ≤ c ∧ c ≤ 'Z' then Char.ofNat (c.toNat + 32)
  else if c = 'Á' then 'á' else if c = 'É' then 'é' else if c = 'Í' then 'í'
  else if c = 'Ó' then 'ó' else if c = 'Ú' then 'ú' else if c = 'Ñ' then 'ñ'
  else if c = 'Ü' then 'ü' else if c = 'Ä' then 'ä' else if c = 'Ë' then 'ë'
  else if c = 'Ï' then 'ï' else if c = 'Ö' then 'ö' else c

/-- Python `str.upper` restricted to the same alphabet. -/
def pyUpper (c : Char) : Char :=
  if 'a' ≤ c ∧ c ≤ 'z' then Char.ofNat (c.toNat - 32)
  else if c = 'á' then 'Á' else if c = 'é' then 'É' else if c = 'í' then 'Í'
  else if c = 'ó' then 'Ó' else if c = 'ú' then 'Ú' else if c = 'ñ' then 'Ñ'
  else if c = 'ü' then 'Ü' else if c = 'ä' then 'Ä' else if c = 'ë' then 'Ë'
  else if c = 'ï' then 'Ï' else if c = 'ö' then 'Ö' else c

/-- Membership of a character in a regex character class given in lower case;
`re.I` case-insensitivity is modelled by lowering the character first. -/
def cIn (c : Char) (s : String) : Bool := s.data.contains (pyLower c)

/-- Character of `w` at index `i`, with a null default that belongs to no
character class (an out-of-range read makes every class test fail, which
matches a regex running out of input). -/
def chAt (w : PyStr) (i : Nat) : Char := w.getD i (Char.ofNat 0)

/-- Case-insensitive test for `[a-z]` under `re.I`. -/
def isAZ (c : Char) : Bool := 'a' ≤ pyLower c && pyLower c ≤ 'z'

/-- A Python `for` loop building a list, aborting at the first exception
(the effect of iterating and appending under exceptions). -/
def exceptMapM {α β : Type} (f : α → Except PyExn β) : List α → Except PyExn (List β)
  | [] => pure []
  | a :: l => do
    let b ← f a
    let bs ← exceptMapM f l
    pure (b :: bs)

@[simp] theorem except_bind_ok {α β : Type} (a : α) (f : α → Except PyExn β) :
    (Except.ok a : Except PyExn α) >>= f = f a := rfl

@[simp] theorem except_bind_error {α β : Type} (e : PyExn) (f : α → Except PyExn β) :
    (Except.error e : Except PyExn α) >>= f = Except.error e := rfl

@[simp] theorem except_pure_eq_ok {α : Type} (a : α) :
    (pure a : Except PyExn α) = Except.ok a := rfl

@[simp] theorem except_throw_eq_error {α : Type} (e : PyExn) :
    (throw e : Except PyExn α) = Except.error e := rfl

@[simp] theorem exceptMapM_nil {α β : Type} (f : α → Except PyExn β) :
    exceptMapM f [] = Except.ok [] := rfl

@[simp] theorem exceptMapM_cons {α β : Type} (f : α → Except PyExn β) (a : α) (l : List α) :
    exceptMapM f (a :: l) =
      (f a) >>= (fun b => (exceptMapM f l) >>= (fun bs => Except.ok (b :: bs))) := rfl

/-!
## Syllabifier: presyllabification rules (`apply_exception_rules`)

Each rule regex in the source has the shape `(prefix)(suffix)` covering the
whole word; a match rewrites the word to `prefix ++ "-" ++ suffix`
(`"-".join(match.groups())`).  A rule is therefore embedded as a search for
the split index plus `insertHyphen`.
-/

/-- Insert a hyphen at position `i` of `w`: the effect of
`"-".join(match.groups())` when the two groups split `w` at `i`. -/
def insertHyphen (w : PyStr) (i : Nat) : PyStr := w.take i ++ '-' :: w.drop i

/-- Largest split index accepted by `cond`: a greedy leading `.*` tries the
longest prefix first. -/
def greedySplit (cond : Nat → Bool) (w : PyStr) : Option Nat :=
  (List.range (w.length + 1)).reverse.find? cond

/-- Smallest split index accepted by `cond`: a lazy leading `.*?` tries the
shortest prefix first. -/
def lazySplit (cond : Nat → Bool) (w : PyStr) : Option Nat :=
  (List.range (w.length + 1)).find? cond

/-- Apply a split-finding rule, inserting a hyphen when it matches. -/
def applySplitRule (find : PyStr → Option Nat) (w : PyStr) : PyStr :=
  match find w with
  | some i => insertHyphen w i
  | none => w

/-- `W_VOWEL_GROUP = (.*[aeiouáéíóú])(w[aeiouáéíóú].*)` -/
def wVowelGroupSplit (w : PyStr) : Option Nat :=
  greedySplit (fun i => decide (1 ≤ i) && cIn (chAt w (i-1)) "aeiouáéíóú"
    && (pyLower (chAt w i) == 'w') && cIn (chAt w (i+1)) "aeiouáéíóú") w

/-- `CONSONANT_GROUP = (.*[hmnqsw])([hlr][aeiouáéíóú].*)` -/
def consonantGroupSplit (w : PyStr) : Option Nat :=
  greedySplit (fun i => decide (1 ≤ i) && cIn (chAt w (i-1)) "hmnqsw"
    && cIn (chAt w i) "hlr" && cIn (chAt w (i+1)) "aeiouáéíóú") w

/-- `CONSONANT_GROUP_EXCEPTION_LL = (.*[hlmnqsw])([hr][aeiouáéíóú].*)` -/
def consonantGroupLLSplit (w : PyStr) : Option Nat :=
  greedySplit (fun i => decide (1 ≤ i) && cIn (chAt w (i-1)) "hlmnqsw"
    && cIn (chAt w i) "hr" && cIn (chAt w (i+1)) "aeiouáéíóú") w

/-- `CONSONANT_GROUP_EXCEPTION_DL = (.*[d])([l][aeiouáéíóú].*)` -/
def consonantGroupDLSplit (w : PyStr) : Option Nat :=
  greedySplit (fun i => decide (1 ≤ i) && (pyLower (chAt w (i-1)) == 'd')
    && (pyLower (chAt w i) == 'l') && cIn (chAt w (i+1)) "aeiouáéíóú") w

/-- Consonant class of the `des-` / `sin-` rules:
`[bcdfgjklmhnñpqrstvxyz]`. -/
def desSinConsonant (c : Char) : Bool := cIn c "bcdfgjklmhnñpqrstvxyz"

/-- `PREFIX_SIN_WITH_CONSONANT_RE = ^(sin)([bcdfgjklmhnñpqrstvxyz].*)` -/
def sinRuleSplit (w : PyStr) : Option Nat :=
  if (w.take 3).map pyLower = pys "sin" ∧ desSinConsonant (chAt w 3) then some 3 else none

/-- `PREFIX_DES_WITH_CONSONANT_RE = ^(des)([bcdfgjklmhnñpqrstvxyz].*)` -/
def desRuleSplit (w : PyStr) : Option Nat :=
  if (w.take 3).map pyLower = pys "des" ∧ desSinConsonant (chAt w 3) then some 3 else none

/-- `PREFIX_RNH_DIPHTHONG_RE = (.*?r)(hu[aeioáéíó].*)` (lazy prefix). -/
def rnhRuleSplit (w : PyStr) : Option Nat :=
  lazySplit (fun i => decide (1 ≤ i) && (pyLower (chAt w (i-1)) == 'r')
    && (pyLower (chAt w i) == 'h') && (pyLower (chAt w (i+1)) == 'u')
    && cIn (chAt w (i+2)) "aeioáéíó") w

/-- `apply_exception_rules` from `core.py`: the seven presyllabification
rules, tried independently in source order, each inserting one hyphen when
its regex matches. -/
def apply_exception_rules (w : PyStr) : PyStr :=
  let w := applySplitRule wVowelGroupSplit w
  let w := applySplitRule consonantGroupSplit w
  let w := applySplitRule consonantGroupLLSplit w
  let w := applySplitRule consonantGroupDLSplit w
  let w := applySplitRule sinRuleSplit w
  let w := applySplitRule desRuleSplit w
  let w := applySplitRule rnhRuleSplit w
  w

/-!
## Syllabifier: core scan (`letter_clusters_re`)

The scan emits one character at a time and searches the remaining suffix for
the first (leftmost, then first alternative) of the 11 cluster patterns; a
hyphen is appended unless the matching alternative is 5, 8 or 11.
-/

/-- The two-consonant groups of alternatives 4 and 5:
`([bcdfghjklmnñpqstvy][hlr])|([bcdfghjklmnñpqrstvy][hr])|([bcdfghjklmnñpqrstvyz][h])`. -/
def consPair (a b : Char) : Bool :=
  (cIn a "bcdfghjklmnñpqstvy" && cIn b "hlr")
    || (cIn a "bcdfghjklmnñpqrstvy" && cIn b "hr")
    || (cIn a "bcdfghjklmnñpqrstvyz" && (pyLower b == 'h'))

/-- `[a-záéíóúñ]` under `re.I`. -/
def letterClass (c : Char) : Bool := isAZ c || cIn c "áéíóúñ"

/-- First alternative of `letter_clusters_re` matching at the head of `w`
(`1`-based group number), or `none`. -/
def matchAlt (w : PyStr) : Option Nat :=
  let c0 := chAt w 0
  let c1 := chAt w 1
  let c2 := chAt w 2
  let c3 := chAt w 3
  if cIn c0 "iuü" && (pyLower c1 == 'h') && cIn c2 "iuü" then some 1
  else if cIn c0 "aáeéíoóú" && (pyLower c1 == 'h') && cIn c2 "iuü" then some 2
  else if cIn c0 "iuü" && (pyLower c1 == 'h') && cIn c2 "aáeéíoóú" then some 3
  else if letterClass c0 && consPair c1 c2 && cIn c3 "aáeéiíoóuúü" then some 4
  else if consPair c0 c1 && cIn c2 "aáeéiíoóuúü" then some 5
  else if letterClass c0 && cIn c1 "bcdfghjklmnñpqrstvxyz" && cIn c2 "aáeéiíoóuúüï" then some 6
  else if cIn c0 "aáeéíoóú" && cIn c1 "aáeéíoóú" then some 7
  else if (pyLower c0 == 'ü') && cIn c1 "eií" then some 8
  else if cIn c0 "aeiou" && cIn c1 "äëïöü" then some 9
  else if cIn c0 "äëïöü" && isAZ c1 then some 10
  else if letterClass c0 then some 11
  else none

/-- `letter_clusters_re.search`: leftmost matching position, reporting the
matching alternative (`m.lastindex`). -/
def clusterSearch : PyStr → Option Nat
  | [] => none
  | c :: rest =>
    match matchAlt (c :: rest) with
    | some k => some k
    | none => clusterSearch rest

/-- The `while len(word) > 0` loop of `syllabify`: emit each character, then
a hyphen unless the search's matching alternative is 5, 8 or 11 (or there is
no match). -/
def coreScan : PyStr → PyStr
  | [] => []
  | c :: rest =>
    c :: (match clusterSearch (c :: rest) with
      | some k => if k = 5 ∨ k = 8 ∨ k = 11 then coreScan rest else '-' :: coreScan rest
      | none => coreScan rest)

/-!
## Syllabifier: postsyllabification rules (`apply_exception_rules_post`)

Each post-rule regex replaces its match `g1 g2 - g3` by `g1 g2 g3`, deleting
one hyphen; since the trailing `.*` of each pattern extends to the end of a
newline-free string, each `re.sub` call performs exactly one deletion.  The
source applies each substitution once per group of the first match, i.e.
three times.  The search order follows Python's backtracking: the branch
`(.*-)` is tried with the rightmost hyphen first, then the `^` branch.
-/

/-- Delete the hyphen sitting at position `j + 1` of `w`. -/
def removeHyphenAfter (w : PyStr) (j : Nat) : PyStr := w.take (j+1) ++ w.drop (j+2)

/-- Body of `CONSONANT_CLUSTER_RE` at position `i`:
`([mpgc])-([bcdfghjklmñnpqrstvwxyz][aeioáéíó].*)`. -/
def ccBody (w : PyStr) (i : Nat) : Bool :=
  cIn (chAt w i) "mpgc" && (chAt w (i+1) == '-')
    && cIn (chAt w (i+2)) "bcdfghjklmñnpqrstvwxyz" && cIn (chAt w (i+3)) "aeioáéíó"

/-- Position chosen by `CONSONANT_CLUSTER_RE`: the largest `i` preceded by a
hyphen whose body matches (greedy `(.*-)` branch), else `0` (`^` branch). -/
def consonantClusterIdx (w : PyStr) : Option Nat :=
  match (List.range (w.length + 1)).reverse.find?
      (fun i => decide (1 ≤ i) && (chAt w (i-1) == '-') && ccBody w i) with
  | some i => some i
  | none => if ccBody w 0 then some 0 else none

/-- One `re.sub(CONSONANT_CLUSTER_RE, r'\1\2\3', word)` call. -/
def consonantClusterSub (w : PyStr) : PyStr :=
  match consonantClusterIdx w with
  | some i => removeHyphenAfter w i
  | none => w

/-- Length of the maximal run of `[bcdfghjklmñnpqrstvwxyz]` starting at `p`. -/
def consRun (w : PyStr) (p : Nat) : Nat :=
  ((w.drop p).takeWhile (fun c => cIn c "bcdfghjklmñnpqrstvwxyz")).length

/-- Candidate start positions for the vowel of the diphthong post-rules,
given a prefix anchor `p`, in backtracking order of `(?:qu|C+)?`: the `qu`
branch, then consonant runs longest first, then the empty option. -/
def diphCandidates (w : PyStr) (p : Nat) : List Nat :=
  (if (pyLower (chAt w p) == 'q') && (pyLower (chAt w (p+1)) == 'u') then [p+2] else [])
    ++ ((List.range (consRun w p)).reverse.map (fun k => p + k + 1))
    ++ [p]

/-- Anchor positions for `(?:.*-|^)`: positions just after a hyphen, tried
right to left (greedy `.*`), then position `0` (the `^` branch). -/
def diphStarts (w : PyStr) : List Nat :=
  ((List.range (w.length + 1)).reverse.filter
    (fun i => decide (1 ≤ i) && (chAt w (i-1) == '-'))) ++ [0]

/-- Body of `LOWERING_DIPHTHONGS_WITH_H` at `j`:
`([aeo])-(h[iu](?![aeoiuíúáéó]).*)`. -/
def loweringBody (w : PyStr) (j : Nat) : Bool :=
  cIn (chAt w j) "aeo" && (chAt w (j+1) == '-') && (pyLower (chAt w (j+2)) == 'h')
    && cIn (chAt w (j+3)) "iu" && !cIn (chAt w (j+4)) "aeoiuíúáéó"

/-- Body of `RAISING_DIPHTHONGS_WITH_H` at `j`:
`([iu])-(h[aeiouáéó](?![aeoáéiuíú]).*)`. -/
def raisingBody (w : PyStr) (j : Nat) : Bool :=
  cIn (chAt w j) "iu" && (chAt w (j+1) == '-') && (pyLower (chAt w (j+2)) == 'h')
    && cIn (chAt w (j+3)) "aeiouáéó" && !cIn (chAt w (j+4)) "aeoáéiuíú"

/-- Position of the vowel before the deleted hyphen for the diphthong
post-rules, following the regex backtracking order. -/
def diphIdx (body : PyStr → Nat → Bool) (w : PyStr) : Option Nat :=
  ((diphStarts w).flatMap (fun p => diphCandidates w p)).find? (body w)

/-- One `re.sub(LOWERING_DIPHTHONGS_WITH_H, r'\1\2\3', word)` call. -/
def loweringSub (w : PyStr) : PyStr :=
  match diphIdx loweringBody w with
  | some j => removeHyphenAfter w j
  | none => w

/-- One `re.sub(RAISING_DIPHTHONGS_WITH_H, r'\1\2\3', word)` call. -/
def raisingSub (w : PyStr) : PyStr :=
  match diphIdx raisingBody w with
  | some j => removeHyphenAfter w j
  | none => w

/-- `apply_exception_rules_post` from `core.py`: each substitution is run
once per group of the first match (three groups, hence three passes); a pass
on a word with no match leaves it unchanged, so the guarding
`if RE.search(word)` needs no separate model. -/
def apply_exception_rules_post (w : PyStr) : PyStr :=
  let w := consonantClusterSub (consonantClusterSub (consonantClusterSub w))
  let w := loweringSub (loweringSub (loweringSub w))
  let w := raisingSub (raisingSub (raisingSub w))
  w

/-!
## Syllabifier: `syllabify`

The foreign-word dictionary `SYLLABIFICATOR_FOREIGN_WORDS_DICT` and the
table `ALTERNATIVE_SYLLABIFICATION` live in a module that is not part of the
analysed sources.  Modelled from the spec: they are external lookup data
keyed by the exact word, the former yielding a pre-hyphenated override
string, the latter a tuple of alternative segmentations; both are passed as
parameters `fd` and `ad`.
-/

/-- `output.split("-")` (Python `str.split` keeps empty fragments). -/
def splitHy : PyStr → List PyStr
  | [] => [[]]
  | c :: rest =>
    if c = '-' then [] :: splitHy rest
    else
      match splitHy rest with
      | s :: ss => (c :: s) :: ss
      | [] => [[c]]

/-- `syllabify` from `core.py`, parameterised by the external dictionaries. -/
def syllabify (fd : PyStr → Option PyStr) (ad : PyStr → List PyStr) (word : PyStr) :
    List PyStr × List PyStr :=
  let output :=
    match fd word with
    | some o => o
    | none => apply_exception_rules_post (coreScan (apply_exception_rules word))
  ((splitHy output).filter (fun s => !s.isEmpty), ad word)

/-- Empty foreign-word dictionary (no entry applies). -/
def fd0 : PyStr → Option PyStr := fun _ => none

/-- Empty alternative-syllabification table. -/
def ad0 : PyStr → List PyStr := fun _ => []

/-- Sanity check: the spec's first concrete scenario. -/
theorem sanity_syllabify_caminando :
    (syllabify fd0 ad0 (pys "caminando")).fst =
      [pys "ca", pys "mi", pys "nan", pys "do"] := by decide

/-- Sanity check: the `des-` presyllabification rule fires on `destituir`. -/
theorem sanity_syllabify_destituir_head :
    (pys "destituir").take 0 = [] ∧
      apply_exception_rules (pys "destituir") = pys "des-tituir" := by decide

/-!
## Stress assigner (`get_word_stress` and helpers)
-/

/-- `accents_re = [áéíóú]` with `re.I`. -/
def isAccentChar (c : Char) : Bool := cIn c "áéíóú"

/-- Python `"|".join`. -/
def joinBar (l : List PyStr) : PyStr := (l.intersperse ['|']).flatten

/-- `get_orthographic_accent` from `core.py`: position of the syllable
bearing the acute accent, computed as the number of `|` separators before
the first accented character of the joined word. -/
def get_orthographic_accent (syllable_list : List PyStr) : Option Nat :=
  let word := joinBar syllable_list
  match word.findIdx? isAccentChar with
  | some i => some ((word.take i).countP (fun c => c == '|'))
  | none => none

/-- `paroxytone_re = ([aeiou]|n|[aeiou]s)$` with `re.I`. -/
def paroxytoneEnd (s : PyStr) : Bool :=
  match s.getLast? with
  | none => false
  | some c =>
    cIn c "aeiou" || (pyLower c == 'n')
      || ((pyLower c == 's')
          && (match s.dropLast.getLast? with
              | some b => cIn b "aeiou"
              | none => false))

/-- `is_paroxytone` from `core.py`.  The source passes the *joined* word
string to `get_orthographic_accent` (which then sees one-character
syllables) and treats an accent position of `0` as falsy; accessing the last
syllable of an empty list raises `IndexError`. -/
def is_paroxytone (syllable_list : List PyStr) : Except PyExn Bool := do
  let joined := syllable_list.flatten
  let accentPos := get_orthographic_accent (joined.map (fun c => [c]))
  if accentPos = none ∨ accentPos = some 0 then
    match syllable_list.getLast? with
    | some last => pure (paroxytoneEnd last)
    | none => throw PyExn.indexError
  else
    pure false

def STRESSED_UNACCENTED_MONOSYLLABLES : List PyStr :=
  [pys "yo", pys "vio", pys "dio", pys "fe", pys "sol", pys "ti", pys "un"]

def UNSTRESSED_UNACCENTED_MONOSYLLABLES : List PyStr :=
  [pys "de", pys "el", pys "la", pys "las", pys "le", pys "les", pys "lo",
   pys "los", pys "mas", pys "me", pys "mi", pys "nos", pys "os", pys "que",
   pys "se", pys "si", pys "su", pys "tan", pys "te", pys "tu"]

/-- `STRONG_VOWELS = set("aeoáéóÁÉÓAEO")` (a literal set, no case folding). -/
def inStrongVowels (c : Char) : Bool := ("aeoáéóÁÉÓAEO".data).contains c

/-- `WEAK_VOWELS = set("iuüíúIÍUÜÚ")`. -/
def inWeakVowels (c : Char) : Bool := ("iuüíúIÍUÜÚ".data).contains c

/-- A syllable dictionary: keys `syllable` and `is_stressed`, plus the
optional keys `has_sinaeresis` / `has_synalepha` (absence modelled as
`false`) and `synalepha_index` (tested by `get_stressed_endings`; never
written by `core.py`, hence `none` throughout the core pipeline). -/
structure Syl where
  syllable : PyStr
  is_stressed : Bool
  has_sinaeresis : Bool := false
  has_synalepha : Bool := false
  synalepha_index : Option (List Nat) := none
  deriving Repr, DecidableEq

/-- Morphological tag dictionary; `get` returns the last binding for a key,
like a Python dict built from a list of pairs. -/
abbrev TagMap := List (PyStr × PyStr)

/-- Python `dict.get`. -/
def tagGet (m : TagMap) (k : PyStr) : Option PyStr := m.reverse.lookup k

/-- The sinaeresis test between two adjacent syllables of a word (strings
are truthy iff nonempty, hence the head/last guards). -/
def sinaeresisPair (first second : PyStr) : Bool :=
  match first.getLast?, second.head? with
  | some a, some b =>
    (inStrongVowels a && inStrongVowels b) || (inWeakVowels a && inStrongVowels b)
      || (inStrongVowels a && inWeakVowels b)
  | _, _ => false

/-- The output syllable list of `get_word_stress`: each syllable marked
stressed iff `len(syllable_list) - index == -stressed_position`, with the
sinaeresis flag of the in-loop lookback pass expressed as a lookahead. -/
def markStress (syllable_list : List PyStr) (stressed_position : Int) : List Syl :=
  syllable_list.enum.map (fun q =>
    { syllable := q.2,
      is_stressed := decide ((syllable_list.length : Int) - q.1 = -stressed_position),
      has_sinaeresis :=
        match syllable_list.get? (q.1 + 1) with
        | some next => sinaeresisPair q.2 next
        | none => false : Syl })

/-- Result of `get_word_stress`. -/
structure WordStress where
  word : List Syl
  stress_position : Int
  deriving Repr, DecidableEq

/-- `get_word_stress` from `core.py`.  The source sets `has_sinaeresis` on
syllable `index - 1` while visiting `index`; mapping each position with a
lookahead to its successor builds the same final list. -/
def get_word_stress (fd : PyStr → Option PyStr) (ad : PyStr → List PyStr)
    (word : PyStr) (pos : PyStr) (tag : TagMap) : Except PyExn WordStress := do
  let syllable_list := (syllabify fd ad word).fst
  let n := syllable_list.length
  let stressed_position : Int ←
    if n = 1 then
      let s := (syllable_list.headD []).map pyLower
      if s ∉ UNSTRESSED_UNACCENTED_MONOSYLLABLES
          ∧ (s ∈ STRESSED_UNACCENTED_MONOSYLLABLES
             ∨ (pos ≠ pys "DET" ∧ pos ≠ pys "PRON" ∧ pos ≠ pys "ADP")
             ∨ (pos = pys "PRON" ∧ tagGet tag (pys "Case") = some (pys "Nom"))
             ∨ (pos = pys "DET" ∧ tagGet tag (pys "Definite") = some (pys "Ind"))) then
        pure (-1)
      else
        pure 0  -- unstressed monosyllable
    else
      match get_orthographic_accent syllable_list with
      | some tilde => pure (-((n : Int) - tilde))
      | none => do
        let p ← is_paroxytone syllable_list
        if p then pure (-2) else pure (-1)
  pure { word := markStress syllable_list stressed_position,
         stress_position := stressed_position }

/-- Sanity check: the spec's scenarios 3 and 4 (`plátano` stressed at
position `-3`, `mano` at `-2`). -/
theorem sanity_word_stress_platano_mano :
    (get_word_stress fd0 ad0 (pys "plátano") (pys "NOUN") []).toOption.map
        (fun r => (r.word.map (fun s => (s.syllable, s.is_stressed)), r.stress_position)) =
      some ([(pys "plá", true), (pys "ta", false), (pys "no", false)], -3) ∧
    (get_word_stress fd0 ad0 (pys "mano") (pys "NOUN") []).toOption.map
        (fun r => r.stress_position) = some (-2) := by decide

/-!
## Liaison / grouping engine
-/

/-- A token dictionary of the scansion pipeline: a word token has the `word`
key, a non-alphabetic token has the `symbol` key. -/
structure Token where
  word : Option (List Syl) := none
  symbol : Option PyStr := none
  deriving Repr, DecidableEq

/-- `LIAISON_FIRST_PART = set("aeiouáéíóúAEIOUÁÉÍÓÚy")`. -/
def inLiaisonFirst (c : Char) : Bool := ("aeiouáéíóúAEIOUÁÉÍÓÚy".data).contains c

/-- `LIAISON_SECOND_PART = set("aeiouáéíóúAEIOUÁÉÍÓÚhy")`. -/
def inLiaisonSecond (c : Char) : Bool := ("aeiouáéíóúAEIOUÁÉÍÓÚhy".data).contains c

/-- `have_prosodic_liaison` from `core.py` (`[-1]` / `[0]` on an empty
syllable string raise). -/
def have_prosodic_liaison (first second : Syl) : Except PyExn Bool :=
  match first.syllable.getLast?, second.syllable.head? with
  | some a, some b => pure (inLiaisonFirst a && inLiaisonSecond b)
  | _, _ => throw PyExn.indexError

/-- `get_sinaeresis` from `core.py`: a left-to-right pass in which a
syllable flagged `has_sinaeresis` consumes the following syllable
(`pop(idx + 1)`); a flagged final syllable makes the `pop` raise.  The
merged dictionary carries only the keys `is_stressed`, `syllable`,
`has_sinaeresis`. -/
def get_sinaeresis : List Syl → Except PyExn (List Syl)
  | [] => pure []
  | s :: rest =>
    if s.has_sinaeresis then
      match rest with
      | [] => throw PyExn.indexError
      | n :: rest2 => do
        let tail ← get_sinaeresis rest2
        pure ({ syllable := s.syllable ++ n.syllable,
                is_stressed := s.is_stressed || n.is_stressed,
                has_sinaeresis := true } :: tail)
    else do
      let tail ← get_sinaeresis rest
      pure (s :: tail)

/-- Inner loop of `get_synalephas` for one word: a syllable flagged
`has_synalepha` consumes the first remaining syllable of the next word
(`word_list[idx + 1].pop(0)`); `next` is `none` for the last word, where
`word_list[idx + 1]` itself raises, and popping an exhausted next word also
raises.  The merged dictionary carries the keys `is_stressed`, `syllable`,
`has_synalepha`. -/
def synalephaWord : List Syl → Option (List Syl) → Except PyExn (List Syl × Option (List Syl))
  | [], next => pure ([], next)
  | s :: rest, next =>
    if s.has_synalepha then
      match next with
      | none => throw PyExn.indexError
      | some [] => throw PyExn.indexError
      | some (n :: ns) => do
        let (out, rem) ← synalephaWord rest (some ns)
        pure ({ is_stressed := s.is_stressed || n.is_stressed,
                syllable := s.syllable ++ n.syllable,
                has_synalepha := true } :: out, rem)
    else do
      let (out, rem) ← synalephaWord rest next
      pure (s :: out, rem)

/-- Outer loop of `get_synalephas`: process word `w`, threading the
remainder of the next word into the following iteration. -/
def synGo : List Syl → List (List Syl) → Except PyExn (List Syl)
  | w, [] => do
    let (out, _) ← synalephaWord w none
    pure out
  | w, w2 :: rest => do
    let (out, w2m) ← synalephaWord w (some w2)
    let tail ← synGo (w2m.getD []) rest
    pure (out ++ tail)

/-- `get_synalephas` from `core.py` (the `deepcopy` makes the pops invisible
to the caller, so a functional pass over successive words is equivalent). -/
def get_synalephas : List (List Syl) → Except PyExn (List Syl)
  | [] => pure []
  | w :: rest => synGo w rest

/-- A line dictionary before rhythm annotation (`{'tokens': [...]}`). -/
structure Line where
  tokens : List Token
  deriving Repr, DecidableEq

/-- The value stored under the line's `rhythm` key.  For the `indexed`
format it holds only `rhythmical_stress`; for the `pattern` format also a
`type` key.  The source never stores a `length` key here (`core.py` puts the
count under the top-level `rhythmical_length` key instead), hence `length?`
is `none` throughout the core pipeline, while `analyze_rhyme` reads
`line["rhythm"]["length"]`. -/
inductive RhythmStress where
  | indexed (idxs : List Nat)
  | patterned (s : PyStr)
  deriving Repr, DecidableEq

structure Rhythm where
  rhythmical_stress : RhythmStress
  type? : Option PyStr := none
  length? : Option Int := none
  deriving Repr, DecidableEq

/-- The keys merged into the line dictionary by `get_rhythmical_pattern`:
`phonological_groups`, `rhythm` (absent for an unrecognised format), a
top-level `type` key (indexed format only) and `rhythmical_length`. -/
structure RhythmResult where
  phonological_groups : List Syl
  rhythm : Option Rhythm
  typeTop? : Option PyStr := none
  rhythmical_length : Nat
  deriving Repr, DecidableEq

/-- Default syllable used to express guarded list indexing. -/
def defaultSyl : Syl := { syllable := [], is_stressed := false }

/-- `get_rhythmical_pattern` from `core.py`.  Note the trailing-correction
`elif` chain: the `len(last_word) > 3` branch is only reached when
`len(last_word) >= 3` is false. -/
def get_rhythmical_pattern (line : Line) (rhythm_format : PyStr) :
    Except PyExn RhythmResult := do
  let wordTokens := line.tokens.filterMap (fun t =>
    match t.word with
    | some w => if w.isEmpty then none else some w
    | none => none)
  let sinaeresis_tokens ← exceptMapM get_sinaeresis wordTokens
  let synalepha_token_list ← get_synalephas sinaeresis_tokens
  let phonological_groups := synalepha_token_list.filter (fun s => !s.syllable.isEmpty)
  let rhythmical_stress : PyStr :=
    synalepha_token_list.map (fun s => if s.is_stressed then '+' else '-')
  let last_word ←
    match sinaeresis_tokens.getLast? with
    | some w => pure w
    | none => throw PyExn.indexError
  let lastSyl ←
    match last_word.getLast? with
    | some s => pure s
    | none => throw PyExn.indexError
  let corrected :=
    if lastSyl.is_stressed then
      rhythmical_stress ++ ['-']
    else if 3 ≤ last_word.length then
      if (last_word.getD (last_word.length - 3) defaultSyl).is_stressed then
        rhythmical_stress.dropLast
      else rhythmical_stress
    else if 3 < last_word.length then
      if (last_word.getD (last_word.length - 4) defaultSyl).is_stressed then
        rhythmical_stress.dropLast
      else rhythmical_stress
    else rhythmical_stress
  let plusIdxs := corrected.enum.filterMap (fun q => if q.2 = '+' then some q.1 else none)
  let rhythmIndexed : Rhythm := { rhythmical_stress := RhythmStress.indexed plusIdxs }
  let rhythmPattern : Rhythm :=
    { rhythmical_stress := RhythmStress.patterned corrected, type? := some rhythm_format }
  if rhythm_format = pys "indexed" then
    pure { phonological_groups,
           rhythm := some rhythmIndexed,
           typeTop? := some rhythm_format,
           rhythmical_length := corrected.length }
  else if rhythm_format = pys "pattern" then
    pure { phonological_groups,
           rhythm := some rhythmPattern,
           rhythmical_length := corrected.length }
  else
    pure { phonological_groups, rhythm := none, rhythmical_length := corrected.length }

/-- `get_last_syllable` from `core.py`: last syllable of the nearest
preceding word token (`None` when there is none; `[-1]` on an empty word
list raises). -/
def get_last_syllable (token_list : List Token) : Except PyExn (Option Syl) :=
  match token_list.reverse.find? (fun t => t.word.isSome) with
  | none => pure none
  | some t =>
    match t.word with
    | some w =>
      match w.getLast? with
      | some s => pure (some s)
      | none => throw PyExn.indexError
    | none => pure none

/-- Set `has_synalepha := true` on the last syllable of the nearest
preceding word token: the in-place `first_syllable.update(...)` of
`get_syllables`. -/
def markLastWordSyl : List Token → List Token
  | [] => []
  | t :: rest =>
    match t.word with
    | some w =>
      ({ t with word := some (w.dropLast
        ++ (w.getLast?.map (fun s => { s with has_synalepha := true })).toList) }) :: rest
    | none => t :: markLastWordSyl rest

def markSynalepha (l : List Token) : List Token := (markLastWordSyl l.reverse).reverse

/-- A token supplied by the external NLP pipeline (§6 of the spec): raw
text (`orth_`), alphabetic flag, coarse POS tag and fine-grained tag. -/
structure SpacyToken where
  text : PyStr
  is_alpha : Bool
  pos : PyStr
  tag : PyStr
  deriving Repr, DecidableEq

/-- Python `str.split` with a one-character separator (keeps empties). -/
def splitChar (sep : Char) : PyStr → List PyStr
  | [] => [[]]
  | c :: rest =>
    if c = sep then [] :: splitChar sep rest
    else
      match splitChar sep rest with
      | x :: xs => (c :: x) :: xs
      | [] => [[c]]

/-- Python `str.split("__")` (non-overlapping, keeps empties). -/
def splitDunder : PyStr → List PyStr
  | [] => [[]]
  | '_' :: '_' :: rest => [] :: splitDunder rest
  | c :: rest =>
    match splitDunder rest with
    | x :: xs => (c :: x) :: xs
    | [] => [[c]]

/-- `spacy_tag_to_dict` from `core.py`: parse `"K=V|K=V"` into a dict; a
part without exactly one `=` makes the `dict(...)` constructor raise. -/
def spacy_tag_to_dict (tag : PyStr) : Except PyExn TagMap := do
  if tag ≠ [] ∧ tag.contains '=' then
    (splitChar '|' tag).foldlM (fun acc part =>
      match splitChar '=' part with
      | [k, v] => pure (acc ++ [(k, v)])
      | _ => throw PyExn.valueError) []
  else
    pure []

/-- `get_syllables` from `core.py`. -/
def get_syllables (fd : PyStr → Option PyStr) (ad : PyStr → List PyStr)
    (word_list : List SpacyToken) : Except PyExn (List Token) := do
  word_list.foldlM (fun syllabified_words w => do
    if w.is_alpha then
      let parts := splitDunder w.tag
      let (pos, tag) ←
        if 1 < parts.length then
          match parts with
          | [p, t] => pure (p, t)
          | _ => throw PyExn.valueError  -- tuple unpacking needs exactly two parts
        else
          pure (w.pos, w.tag)  -- `word.pos_ or ""` / `word.tag_ or ""`
      let tags ← spacy_tag_to_dict tag
      let stressed_word ← get_word_stress fd ad w.text pos tags
      let first_syllable ← get_last_syllable syllabified_words
      let second_syllable ←
        match stressed_word.word.head? with
        | some s => pure s
        | none => throw PyExn.indexError
      let syllabified_words ←
        match first_syllable with
        | some fs => do
          let liaison ← have_prosodic_liaison fs second_syllable
          pure (if liaison then markSynalepha syllabified_words else syllabified_words)
        | none => pure syllabified_words
      pure (syllabified_words ++ [({ word := some stressed_word.word } : Token)])
    else
      pure (syllabified_words ++ [({ symbol := some w.text } : Token)])) []

/-!
## Rhyme extractor and coder (`rhymes.py`)
-/

/-- Python list indexing with a possibly negative index. -/
def pyGet {α : Type} (l : List α) (i : Int) : Except PyExn α :=
  let j : Int := if i < 0 then (l.length : Int) + i else i
  if 0 ≤ j ∧ j < (l.length : Int) then
    match l.get? j.toNat with
    | some v => pure v
    | none => throw PyExn.indexError
  else throw PyExn.indexError

/-- Python list item assignment with a possibly negative index. -/
def pySet {α : Type} (l : List α) (i : Int) (v : α) : Except PyExn (List α) :=
  let j : Int := if i < 0 then (l.length : Int) + i else i
  if 0 ≤ j ∧ j < (l.length : Int) then pure (l.set j.toNat v) else throw PyExn.indexError

/-- One element of `get_stressed_endings`' result: the syllable tail from
the last stressed group, the group count, and the stress offset. -/
abbrev StressedEnding := List PyStr × Nat × Int

/-- Trim one phonological group for the ending: a group carrying a
`synalepha_index` key contributes only the substring after its last merge
boundary (`syllable[synalepha_index[-1] + 1:]`); `[-1]` on an empty index
list raises. -/
def trimGroup (g : Syl) : Except PyExn PyStr :=
  match g.synalepha_index with
  | some idxs =>
    match idxs.getLast? with
    | some v => pure (g.syllable.drop (v + 1))
    | none => throw PyExn.indexError
  | none => pure g.syllable

/-- The body of `get_stressed_endings`' loop for one line; `list.index(True)`
raises `ValueError` on a line with no stressed group. -/
def stressedEndingOfLine (line : RhythmResult) : Except PyExn StressedEnding := do
  let syllables ← exceptMapM trimGroup line.phonological_groups
  let syllables_count := syllables.length
  let syllables_stresses := line.phonological_groups.map (fun g => g.is_stressed)
  let inverted_stresses := syllables_stresses.reverse
  let revIdx : Nat ←
    match inverted_stresses.findIdx? (fun b => b) with
    | some i => pure i
    | none => throw PyExn.valueError
  let last_stress_index : Nat := inverted_stresses.length - revIdx - 1
  let ending := syllables.drop last_stress_index
  pure ((ending, syllables_count,
    (last_stress_index : Int) - (syllables_count : Int)) : StressedEnding)

/-- `get_stressed_endings` from `rhymes.py`. -/
def get_stressed_endings (lines : List RhythmResult) : Except PyExn (List StressedEnding) :=
  exceptMapM stressedEndingOfLine lines

/-- `TILDED_VOWELS_RE` step of `get_clean_codes`: uppercase the first
tilded vowel if any, otherwise uppercase the whole syllable. -/
def tildeUpper (s : PyStr) : PyStr :=
  match s.findIdx? (fun c => cIn c "áéíóú") with
  | some i => s.take i ++ pyUpper (chAt s i) :: s.drop (i+1)
  | none => s.map pyUpper

/-- `WEAK_VOWELS_RE.sub(r"\1", s, count=1)`: delete the first weak vowel
immediately preceding a strong vowel (`[iuïü]([aeoáéó])`, `re.I`). -/
def weakVowelSubOnce (s : PyStr) : PyStr :=
  match (List.range s.length).find?
      (fun i => cIn (chAt s i) "iuïü" && cIn (chAt s (i+1)) "aeoáéó") with
  | some i => s.take i ++ s.drop (i+1)
  | none => s

/-- Python `str.replace` (global, non-overlapping, left to right), with a
structural fuel bounded by the string length so the kernel can evaluate it
(one character is consumed per unit of fuel at least, since the pattern is
nonempty whenever it is consumed). -/
def strReplaceFuel : Nat → PyStr → PyStr → PyStr → PyStr
  | 0, s, _, _ => s
  | fuel+1, s, pat, repl =>
    match s with
    | [] => []
    | c :: rest =>
      if pat ≠ [] ∧ pat.isPrefixOf (c :: rest) then
        repl ++ strReplaceFuel fuel ((c :: rest).drop pat.length) pat repl
      else
        c :: strReplaceFuel fuel rest pat repl

def strReplace (s pat repl : PyStr) : PyStr := strReplaceFuel s.length s pat repl

def HOMOPHONES : List (PyStr × PyStr) :=
  [(pys "v", pys "b"), (pys "ll", pys "y"), (pys "ze", pys "ce"), (pys "zi", pys "ci"),
   (pys "qui", pys "ki"), (pys "que", pys "ke"), (pys "ge", pys "je"), (pys "gi", pys "ji")]

/-- Homophone normalisation of the relaxation branch: each pair replaced in
lower case and then in upper case, in table order. -/
def homophoneReplace (s : PyStr) : PyStr :=
  HOMOPHONES.foldl (fun acc p =>
    strReplace (strReplace acc p.1 p.2) (p.1.map pyUpper) (p.2.map pyUpper)) s

/-- One relaxed syllable of `get_clean_codes`. -/
def relaxSyllable (s : PyStr) : PyStr := homophoneReplace (weakVowelSubOnce s)

/-- `VOWELS` of `rhymes.py` (unstressed plus stressed), under `re.I`. -/
def isVowelFull (c : Char) : Bool := cIn c "aeiouáéíóúäëïöü"

/-- `GROUP_GQ_RE.sub(r"\1\2", s)`: `([qg])u([ei])` drops the mute `u`
(global, non-overlapping). -/
def groupGQSub : PyStr → PyStr
  | a :: b :: c :: rest =>
    if cIn a "qg" && (pyLower b == 'u') && cIn c "ei" then
      a :: c :: groupGQSub rest
    else a :: groupGQSub (b :: c :: rest)
  | s => s

/-- `DIPHTHONG_Y_RE.sub(r"\1i\2", s)`: `([V])h?y([^V])` rewrites the `y`
(and a preceding mute `h`) to `i` (global, non-overlapping; the optional
`h` is tried first, as in greedy `h?`). -/
def diphthongYSub : PyStr → PyStr
  | a :: b :: c :: d :: rest =>
    if isVowelFull a && (pyLower b == 'h') && (pyLower c == 'y') && !isVowelFull d then
      a :: 'i' :: d :: diphthongYSub rest
    else if isVowelFull a && (pyLower b == 'y') && !isVowelFull c then
      a :: 'i' :: c :: diphthongYSub (d :: rest)
    else a :: diphthongYSub (b :: c :: d :: rest)
  | [a, b, c] =>
    if isVowelFull a && (pyLower b == 'y') && !isVowelFull c then
      [a, 'i', c]
    else a :: diphthongYSub [b, c]
  | s => s

/-- `DIPHTHONG_H_RE.sub(r"\1\2", s)`: `([V])h([V])` drops the mute `h`
(global, non-overlapping). -/
def diphthongHSub : PyStr → PyStr
  | a :: b :: c :: rest =>
    if isVowelFull a && (pyLower b == 'h') && isVowelFull c then
      a :: c :: diphthongHSub rest
    else a :: diphthongHSub (b :: c :: rest)
  | s => s

/-- `CONSONANTS = bcdfghjklmnñpqrstvwxyz`, under `re.I`. -/
def isConsonant (c : Char) : Bool := cIn c "bcdfghjklmnñpqrstvwxyz"

/-- `CONSONANTS_RE.sub(r"", s)` of the assonance branch. -/
def removeConsonants (s : PyStr) : PyStr := s.filter (fun c => !isConsonant c)

/-- `INITIAL_CONSONANTS_RE.sub(r"", s, count=1)`: strip the leading
consonant cluster once. -/
def dropInitialConsonants (s : PyStr) : PyStr := s.dropWhile isConsonant

/-- Modelled from the spec: `strip_accents` comes from the external
`spacy_affixes.utils` module, which is not among the analysed sources; the
spec (§4.5 step 5) describes it as normalising accented letters to their
base form.  Vowel diacritics are stripped case-preservingly; `ñ` is kept
(it is part of the program's consonant alphabet). -/
def strip_accents (s : PyStr) : PyStr :=
  s.map (fun c =>
    if c = 'á' ∨ c = 'ä' then 'a' else if c = 'é' ∨ c = 'ë' then 'e'
    else if c = 'í' ∨ c = 'ï' then 'i' else if c = 'ó' ∨ c = 'ö' then 'o'
    else if c = 'ú' ∨ c = 'ü' then 'u'
    else if c = 'Á' ∨ c = 'Ä' then 'A' else if c = 'É' ∨ c = 'Ë' then 'E'
    else if c = 'Í' ∨ c = 'Ï' then 'I' else if c = 'Ó' ∨ c = 'Ö' then 'O'
    else if c = 'Ú' ∨ c = 'Ü' then 'U' else c)

/-- Result of `get_clean_codes`: the ending of each numeric code in
assignment order (`codes2endings`, positional lookup), the per-line code
numbers, the set of codes currently seen exactly once, and the stressed
endings after the in-place uppercasing of the stressed syllables (the
source mutates its input list, and later calls observe the update). -/
structure CleanCodes where
  codes2endings : List PyStr
  code_numbers : List Nat
  unique : List Nat
  updated_endings : List StressedEnding
  deriving Repr, DecidableEq

/-- `get_clean_codes` from `rhymes.py`. -/
def get_clean_codes (stressed_endings : List StressedEnding)
    (assonance relaxation : Bool) : Except PyExn CleanCodes := do
  stressed_endings.foldlM (fun st se => do
    let (stressed_ending, cnt, stressed_position) := se
    let syllable ← pyGet stressed_ending stressed_position
    let syllable := tildeUpper syllable
    let stressed_ending ← pySet stressed_ending stressed_position syllable
    let ending :=
      if relaxation then (stressed_ending.map relaxSyllable).flatten
      else stressed_ending.flatten
    let ending := groupGQSub ending
    let ending := diphthongYSub ending
    let ending :=
      if assonance then removeConsonants ending
      else dropInitialConsonants (diphthongHSub ending)
    let ending := strip_accents ending
    let (codes2, uniq, num) :=
      match st.codes2endings.indexOf? ending with
      | some k => (st.codes2endings, st.unique.erase k, k)
      | none => (st.codes2endings ++ [ending], st.unique ++ [st.codes2endings.length],
                 st.codes2endings.length)
    pure { codes2endings := codes2,
           code_numbers := st.code_numbers ++ [num],
           unique := uniq,
           updated_endings := st.updated_endings ++ [(stressed_ending, cnt, stressed_position)] })
    ({ codes2endings := [], code_numbers := [], unique := [], updated_endings := [] })

/-- Running state of `assign_letter_codes`. -/
structure ALCState where
  letters : List Nat
  last_found : List (Nat × Nat)
  rhymes : List Int
  endings : List PyStr
  deriving Repr, DecidableEq

/-- One loop iteration of `assign_letter_codes` at line `index`.  In the
offset branch the source flags the *previous* occurrence as unrhymed and
appends the sentinel and an empty ending for the current line as well; the
`last_found` anchor is updated in either branch. -/
def alcStep (codes : List PyStr) (unrhymed_verses : List Nat) (offset : Option Int)
    (index : Nat) (st : ALCState) (rhyme : Nat) : ALCState :=
  if rhyme ∈ unrhymed_verses then
    { st with rhymes := st.rhymes ++ [-1], endings := st.endings ++ [[]] }
  else
    let letters := if rhyme ∈ st.letters then st.letters else st.letters ++ [rhyme]
    let gapExceeded :=
      match st.last_found.lookup rhyme, offset with
      | some prev, some off => decide ((index : Int) - (prev : Int) > off)
      | _, _ => false
    if gapExceeded then
      match st.last_found.lookup rhyme with
      | some prev =>
        { letters := letters,
          last_found := (rhyme, index) :: st.last_found,
          rhymes := (st.rhymes.set prev (-1)) ++ [-1],
          endings := (st.endings.set prev []) ++ [[]] }
      | none =>
        { letters := letters,
          last_found := (rhyme, index) :: st.last_found,
          rhymes := st.rhymes ++ [((letters.indexOf rhyme : Nat) : Int)],
          endings := st.endings ++ [codes.getD rhyme []] }
    else
      { letters := letters,
        last_found := (rhyme, index) :: st.last_found,
        rhymes := st.rhymes ++ [((letters.indexOf rhyme : Nat) : Int)],
        endings := st.endings ++ [codes.getD rhyme []] }

/-- The `enumerate` loop of `assign_letter_codes`. -/
def alcGo (codes : List PyStr) (unrhymed_verses : List Nat) (offset : Option Int) :
    Nat → ALCState → List Nat → ALCState
  | _, st, [] => st
  | index, st, rhyme :: rest =>
    alcGo codes unrhymed_verses offset (index + 1)
      (alcStep codes unrhymed_verses offset index st rhyme) rest

/-- `assign_letter_codes` from `rhymes.py` (`codes` is the positional
`codes2endings` map; every code number produced by `get_clean_codes`
indexes it, so the `codes[rhyme]` lookup is modelled with `getD`). -/
def assign_letter_codes (codes : List PyStr) (code_numbers : List Nat)
    (unrhymed_verses : List Nat) (offset : Option Int) : List Int × List PyStr :=
  let final := alcGo codes unrhymed_verses offset 0
    ({ letters := [], last_found := [], rhymes := [], endings := [] }) code_numbers
  (final.rhymes, final.endings)

def ascii_letters : PyStr := pys "abcdefghijklmnopqrstuvwxyzABCDEFGHIJKLMNOPQRSTUVWXYZ"

/-- The loop of `rhyme_codes_to_letters`: `letters` is the map of rhyme ids
seen so far (in first-appearance order), `acc` the letters emitted so far;
`string.ascii_letters[i]` raises for `i ≥ 52`. -/
def rclGo (sym : Char) (letters : List Int) (acc : List Char) :
    List Int → Except PyExn (List Char)
  | [] => pure acc
  | rhyme :: rest =>
    if rhyme < 0 then rclGo sym letters (acc ++ [sym]) rest
    else
      let letters2 := if rhyme ∈ letters then letters else letters ++ [rhyme]
      match ascii_letters.get? (letters2.indexOf rhyme) with
      | some c => rclGo sym letters2 (acc ++ [c]) rest
      | none => throw PyExn.indexError

def rhyme_codes_to_letters (rhymes : List Int) (sym : Char) : Except PyExn (List Char) :=
  rclGo sym [] [] rhymes

/-- Python `str.isupper` on the characters the program produces. -/
def pyIsUpper (c : Char) : Bool :=
  ('A' ≤ c && c ≤ 'Z') || ("ÁÉÍÓÚÄËÏÖÜÑ".data).contains c

/-- `split_stress` from `rhymes.py`.  An empty ending contributes a `0`
stress; a nonempty ending contributes a stress entry only when lowering
changes it (the source has no `continue`, and the two appends are
independent, so the two output lists can differ in length). -/
def split_stress (endings : List PyStr) : Except PyExn (List Int × List PyStr) := do
  endings.foldlM (fun (st : List Int × List PyStr) ending => do
    let stresses := if ending.isEmpty then st.1 ++ [0] else st.1
    let ending_lower := ending.map pyLower
    if ending_lower ≠ ending then
      let positions := ending.enum.filterMap (fun q =>
        if pyIsUpper q.2 then some ((q.1 : Int) - (ending.length : Int)) else none)
      match positions.head? with
      | some p => pure (stresses ++ [p], st.2 ++ [ending_lower])
      | none => throw PyExn.indexError
    else
      pure (stresses, st.2 ++ [ending])) ([], [])

/-- `get_rhymes` from `rhymes.py`.  The fourth component propagates the
mutation of `stressed_endings` performed inside `get_clean_codes`. -/
def get_rhymes (stressed_endings : List StressedEnding) (assonance relaxation : Bool)
    (offset : Option Int) (unrhymed_verse_symbol : Option Char) :
    Except PyExn (List Char × List PyStr × List Int × List StressedEnding) := do
  let sym := unrhymed_verse_symbol.getD '-'
  let cc ← get_clean_codes stressed_endings assonance relaxation
  let (rhyme_codes, endings) :=
    assign_letter_codes cc.codes2endings cc.code_numbers cc.unique offset
  let rhymes ← rhyme_codes_to_letters rhyme_codes sym
  let (stresses, unstressed_endings) ← split_stress endings
  pure (rhymes, unstressed_endings, stresses, cc.updated_endings)

/-- Sanity check: `get_clean_codes` on endings drawn from the repository's
test vector, under the default consonant-strict policy. -/
theorem sanity_get_clean_codes :
    (get_clean_codes
      [([pys "ma", pys "yo"], 9, -2), ([pys "lor"], 7, -1),
       ([pys "ca", pys "ñan"], 8, -2), ([pys "flor"], 8, -1),
       ([pys "lan", pys "dria"], 8, -2)] false false).toOption.map
        (fun cc => (cc.codes2endings, cc.code_numbers, cc.unique)) =
      some ([pys "Ayo", pys "OR", pys "Añan", pys "ANdria"],
            [0, 1, 2, 1, 3], [0, 2, 3]) := by decide

/-- Sanity check: the assonance policy keeps vowels only. -/
theorem sanity_get_clean_codes_assonance :
    (get_clean_codes [([pys "ma", pys "yo"], 9, -2), ([pys "sión"], 8, -1)]
        true false).toOption.map (fun cc => cc.codes2endings) =
      some [pys "Ao", pys "iO"] := by decide

/-!
## Structure matcher (`search_structure`, `analyze_rhyme`) and `get_scansion`
-/

/-- `ASSONANT_RHYME` from `structures.py`. -/
def ASSONANT_RHYME : PyStr := pys "assonant"

/-- `CONSONANT_RHYME` from `structures.py`. -/
def CONSONANT_RHYME : PyStr := pys "consonant"

/-- A catalog entry of `STRUCTURES` from `structures.py`: rhyme-type key,
structure name, rhyme pattern, and length condition.  The compiled
pattern's `fullmatch` and the length `lambda` are modelled as
boolean-valued functions; the catalog itself is process-wide read-only
configuration data (§6 of the spec) and is passed as a parameter, as the
`structures` argument of `search_structure` allows. -/
structure StructEntry where
  key : PyStr
  name : PyStr
  fullmatch : PyStr → Bool
  func : List Int → Bool

/-- `search_structure` from `rhymes.py`: index of the first entry (in
declared order) whose key equals `structure_key`, whose pattern fully
matches the joined rhyme letters, and whose length predicate holds. -/
def search_structure (structures : List StructEntry) (rhyme : PyStr)
    (rhythmical_lengths : List Int) (structure_key : PyStr) : Option Nat :=
  structures.findIdx? (fun e =>
    (e.key == structure_key) && e.fullmatch rhyme && e.func rhythmical_lengths)

/-- The best structure returned by `analyze_rhyme`. -/
structure BestStructure where
  name : PyStr
  rank : Nat
  rhyme : List Char
  endings : List PyStr
  endings_stress : List Int
  rhyme_type : PyStr
  rhyme_relaxation : Bool
  deriving Repr, DecidableEq

/-- The four `(assonance, relaxation)` trials of `analyze_rhyme` in
evaluation order: consonant-relaxed, consonant-strict, assonant-relaxed,
assonant-strict. -/
def rhymeTrials : List (Bool × Bool) :=
  [(false, true), (false, false), (true, true), (true, false)]

/-- Read `line["rhythm"]["length"]`: raises `KeyError` when the `rhythm`
key or its `length` key is absent (the latter is never written by
`core.py`). -/
def rhythmLength (line : RhythmResult) : Except PyExn Int :=
  match line.rhythm with
  | some r =>
    match r.length? with
    | some v => pure v
    | none => throw PyExn.keyError
  | none => throw PyExn.keyError

/-- Fold state of `analyze_rhyme`: best ranking so far, best structure so
far, and the (mutated) stressed endings passed to the next trial. -/
abbrev ARState := Nat × Option BestStructure × List StressedEnding

/-- One `(assonance, relaxation)` trial of `analyze_rhyme`'s loop body. -/
def analyzeTrial (structures : List StructEntry) (lines : List RhythmResult)
    (offset : Option Int) (st : ARState) (trial : Bool × Bool) : Except PyExn ARState := do
  let (assonance, relaxation) := trial
  let (best_ranking, best_structure, se) := st
  let (rhymes, endings, endings_stress, se2) ← get_rhymes se assonance relaxation offset none
  let rhyme_type := if assonance then ASSONANT_RHYME else CONSONANT_RHYME
  let rhyme := rhymes
  let rhythmical_lengths ← exceptMapM rhythmLength lines
  match search_structure structures rhyme rhythmical_lengths rhyme_type with
  | some ranking =>
    if ranking < best_ranking then
      let nm :=
        match structures.get? ranking with
        | some e => e.name
        | none => []
      pure (ranking,
        some { name := nm, rank := ranking, rhyme := rhymes, endings := endings,
               endings_stress := endings_stress, rhyme_type := rhyme_type,
               rhyme_relaxation := relaxation }, se2)
    else
      pure (best_ranking, best_structure, se2)
  | none => pure (best_ranking, best_structure, se2)

/-- `analyze_rhyme` from `rhymes.py` (`offset` defaults to `4` at the call
site in `get_scansion`). -/
def analyze_rhyme (structures : List StructEntry) (lines : List RhythmResult)
    (offset : Option Int) : Except PyExn (Option BestStructure) := do
  let stressed_endings ← get_stressed_endings lines
  let final ← rhymeTrials.foldlM (analyzeTrial structures lines offset)
    ((structures.length, none, stressed_endings) : ARState)
  pure final.2.1

/-- A fully annotated output line of `get_scansion`; the `structureName?`
field models the `structure` key, and the optional rhyme fields model keys
added only when rhyme analysis succeeds (`rhyme_relaxation? = some none`
models an explicit `None` value). -/
structure OutLine where
  tokens : List Token
  rhythm_data : RhythmResult
  structure_name : Option PyStr := none
  rhyme_letter : Option Char := none
  ending_text : Option PyStr := none
  ending_stress : Option Int := none
  rhyme_type_val : Option PyStr := none
  rhyme_relaxation_val : Option (Option Bool) := none
  deriving Repr, DecidableEq

/-- `get_scansion` from `core.py`, on a pre-tokenised document (the
`isinstance(text, Doc)` branch; `load_pipeline` is the external NLP
collaborator).  A line boundary is a SPACE-tagged token whose text contains
a newline, unless no token has been collected yet. -/
def get_scansion (fd : PyStr → Option PyStr) (ad : PyStr → List PyStr)
    (tokens : List SpacyToken) (rhyme_analysis : Bool) (rhythm_format : PyStr)
    (structures : List StructEntry) : Except PyExn (List OutLine) := do
  let splitState := tokens.foldl
    (fun (st : List SpacyToken × List (List SpacyToken)) token =>
      if token.pos = pys "SPACE" ∧ token.text.contains '\n' ∧ st.1 ≠ [] then
        ([], st.2 ++ [st.1])
      else (st.1 ++ [token], st.2)) ([], [])
  let linesTok := if splitState.1 ≠ [] then splitState.2 ++ [splitState.1] else splitState.2
  let scanned ← exceptMapM (fun lt => do
    let sylls ← get_syllables fd ad lt
    let r ← get_rhythmical_pattern { tokens := sylls } rhythm_format
    pure ({ tokens := sylls, rhythm_data := r } : OutLine)) linesTok
  if rhyme_analysis then
    let analyzed ← analyze_rhyme structures (scanned.map (fun l => l.rhythm_data)) (some 4)
    match analyzed with
    | none => pure scanned
    | some rhyme =>
      exceptMapM (fun q => do
        let (index, line) := q
        let rl ← pyGet rhyme.rhyme (index : Int)
        let el ← pyGet rhyme.endings (index : Int)
        let sl ← pyGet rhyme.endings_stress (index : Int)
        if sl = 0 then
          pure { line with
            structure_name := some rhyme.name,
            rhyme_letter := some rl,
            ending_text := some el,
            ending_stress := some sl,
            rhyme_type_val := some [],
            rhyme_relaxation_val := some none }
        else
          pure { line with
            structure_name := some rhyme.name,
            rhyme_letter := some rl,
            ending_text := some el,
            ending_stress := some sl,
            rhyme_type_val := some rhyme.rhyme_type,
            rhyme_relaxation_val := some (some rhyme.rhyme_relaxation) }) scanned.enum
  else
    pure scanned

/-- Sanity check: scanning the single word `sol` without rhyme analysis
produces one line with phonological group `sol` (stressed) and corrected
pattern `+-` of length `2`. -/
theorem sanity_get_scansion_sol :
    (get_scansion fd0 ad0
        [{ text := pys "sol", is_alpha := true, pos := pys "NOUN", tag := [] }]
        false (pys "pattern") []).toOption.map
      (fun lines => lines.map (fun l =>
        (l.rhythm_data.phonological_groups.map (fun g => (g.syllable, g.is_stressed)),
         l.rhythm_data.rhythmical_length))) =
      some [([(pys "sol", true)], 2)] := by decide

/-!
## Claim theorems
-/

/-- The single-word document `sol` (C9's failing input). -/
def solDoc : List SpacyToken :=
  [{ text := pys "sol", is_alpha := true, pos := pys "NOUN", tag := [] }]

/-- The line dictionary `get_scansion` builds for `solDoc` under the
`pattern` format: one stressed phonological group `sol`, corrected pattern
`+-`, and no `length` key inside `rhythm`. -/
def solLines : List RhythmResult :=
  [{ phonological_groups := [{ syllable := pys "sol", is_stressed := true }],
     rhythm := some { rhythmical_stress := RhythmStress.patterned (pys "+-"),
                      type? := some (pys "pattern") },
     rhythmical_length := 2 }]

/-- Sanity check: `solLines` is exactly the rhythm data the pipeline
produces for `solDoc`. -/
theorem sanity_solLines :
    (get_scansion fd0 ad0 solDoc false (pys "pattern") []).toOption.map
      (fun ls => ls.map OutLine.rhythm_data) = some solLines := by decide

/-- Claim C9 (code bug): scanning any nonempty poem with
`rhyme_analysis=True` raises `KeyError` instead of completing, because
`analyze_rhyme` reads `line["rhythm"]["length"]` while
`get_rhythmical_pattern` stores the count only under the top-level
`rhythmical_length` key.  First conjunct: the full pipeline on the one-word
poem `sol`.  Second conjunct: the error occurs for every structure catalog. -/
theorem claim_C9 :
    get_scansion fd0 ad0 solDoc true (pys "pattern") [] = Except.error PyExn.keyError ∧
    ∀ structures : List StructEntry,
      analyze_rhyme structures solLines (some 4) = Except.error PyExn.keyError := by
  exact ⟨rfl, fun structures => rfl⟩

/-- The stress assigner's output for `cuéntamelo`: four syllables, only the
fourth-from-last stressed (C4's failing input). -/
def c4Word : List Syl :=
  [{ syllable := pys "cuén", is_stressed := true },
   { syllable := pys "ta", is_stressed := false },
   { syllable := pys "me", is_stressed := false },
   { syllable := pys "lo", is_stressed := false }]

/-- Sanity check: `c4Word` really is the stress assigner's output for the
word `cuéntamelo` (stress position `-4`). -/
theorem sanity_c4Word :
    (get_word_stress fd0 ad0 (pys "cuéntamelo") (pys "VERB") []).toOption.map
      (fun r => (r.word, r.stress_position)) = some (c4Word, -4) := by decide

/-- A line whose only (hence last) word is `c4Word`. -/
def c4Line : Line := { tokens := [{ word := some c4Word }] }

/-- The trailing correction as claim C4 states it: the three corrections
tried in order on the last word, the third one applying when the word has
more than three syllables and its fourth-from-last syllable is stressed. -/
def claimedTrailingCorrection (pattern : PyStr) (last_word : List Syl) : PyStr :=
  if (last_word.getLast?.map Syl.is_stressed).getD false then
    pattern ++ ['-']
  else if 3 ≤ last_word.length ∧ (last_word.getD (last_word.length - 3) defaultSyl).is_stressed then
    pattern.dropLast
  else if 3 < last_word.length ∧ (last_word.getD (last_word.length - 4) defaultSyl).is_stressed then
    pattern.dropLast
  else pattern

/-- Claim C4 (code bug): on a line whose last word has four syllables with
only the fourth-from-last stressed, the code applies no trailing
correction (pattern `+---`, `rhythmical_length = 4`), because the
`len(last_word) > 3` test sits in an `elif` chain behind
`len(last_word) >= 3` and is unreachable; the correction described by the
claim would drop the final character (length 3). -/
theorem claim_C4 :
    (get_rhythmical_pattern c4Line (pys "pattern")).toOption.map
        (fun r => (r.rhythm.map Rhythm.rhythmical_stress, r.rhythmical_length)) =
      some (some (RhythmStress.patterned (pys "+---")), 4) ∧
    claimedTrailingCorrection (pys "+---") c4Word = pys "+--" := by decide

/-- Claim C3, counterexample: `con` is a one-syllable word outside the
unstressed-function-word set with POS `ADP`, so the claim as stated demands
`stress_position = -1`; the code returns `0` (its condition requires the
word to be outside the unstressed set *and* an override to hold before it
assigns `-1`). -/
theorem claim_C3_counterexample :
    (syllabify fd0 ad0 (pys "con")).fst = [pys "con"] ∧
    pys "con" ∉ UNSTRESSED_UNACCENTED_MONOSYLLABLES ∧
    (get_word_stress fd0 ad0 (pys "con") (pys "ADP") []).toOption.map
      WordStress.stress_position = some 0 := by decide

/-- Success of `exceptMapM` is success of every element. -/
theorem exceptMapM_ok_iff {α β : Type} (f : α → Except PyExn β) :
    ∀ l : List α, (∃ r, exceptMapM f l = Except.ok r) ↔ ∀ x ∈ l, ∃ y, f x = Except.ok y := by
  intro l
  induction l with
  | nil => exact ⟨fun _ x hx => absurd hx (List.not_mem_nil x), fun _ => ⟨[], rfl⟩⟩
  | cons a l ih =>
    constructor
    · rintro ⟨r, hr⟩ x hx
      rw [exceptMapM_cons] at hr
      cases hfa : f a with
      | error e => rw [hfa] at hr; simp at hr
      | ok b =>
        rw [hfa] at hr
        rcases hmem : exceptMapM f l with e | bs
        · rw [hmem] at hr; simp at hr
        · rcases List.mem_cons.mp hx with h1 | h2
          · exact ⟨b, h1 ▸ hfa⟩
          · exact (ih.mp ⟨bs, hmem⟩) x h2
    · intro hall
      obtain ⟨b, hb⟩ := hall a (List.mem_cons_self a l)
      obtain ⟨bs, hbs⟩ := ih.mpr (fun x hx => hall x (List.mem_cons_of_mem a hx))
      exact ⟨b :: bs, by rw [exceptMapM_cons, hb, hbs]; rfl⟩

/-- `trimGroup` succeeds unless the group carries an empty
`synalepha_index` list. -/
theorem trimGroup_ok_iff (g : Syl) :
    (∃ y, trimGroup g = Except.ok y) ↔ ∀ idxs, g.synalepha_index = some idxs → idxs ≠ [] := by
  rcases hsi : g.synalepha_index with _ | idxs
  · constructor
    · intro _ idxs h
      exact Option.noConfusion h
    · intro _
      exact ⟨g.syllable, by simp [trimGroup, hsi]⟩
  · cases idxs with
    | nil =>
      constructor
      · rintro ⟨y, hy⟩
        simp [trimGroup, hsi] at hy
      · intro h
        exact absurd rfl (h [] rfl)
    | cons v vs =>
      constructor
      · intro _ idxs h hnil
        cases h
        exact List.cons_ne_nil v vs hnil
      · intro _
        refine ⟨g.syllable.drop ((v :: vs).getLast (List.cons_ne_nil v vs) + 1), ?_⟩
        simp [trimGroup, hsi, List.getLast?_eq_getLast]

/-- `findIdx?` over booleans finds an index exactly when a `true` occurs. -/
theorem findIdx_bool_isSome_iff (l : List Bool) :
    (l.findIdx? (fun b => b)).isSome ↔ ∃ b ∈ l, b = true := by
  induction l with
  | nil => simp [List.findIdx?]
  | cons a l ih =>
    cases a with
    | true => simp [List.findIdx?]
    | false => simpa [List.findIdx?] using ih

/-- A single line's stressed ending is defined exactly when every
`synalepha_index` present is nonempty and some group is stressed. -/
theorem stressedEndingOfLine_ok_iff (line : RhythmResult) :
    (∃ r, stressedEndingOfLine line = Except.ok r) ↔
      ((∀ g ∈ line.phonological_groups, ∀ idxs, g.synalepha_index = some idxs → idxs ≠ []) ∧
        ∃ g ∈ line.phonological_groups, g.is_stressed = true) := by
  rcases htrim : exceptMapM trimGroup line.phonological_groups with e | syllables
  · constructor
    · rintro ⟨r, hr⟩
      simp [stressedEndingOfLine, htrim] at hr
    · rintro ⟨hidx, -⟩
      obtain ⟨rr, hrr⟩ := (exceptMapM_ok_iff trimGroup line.phonological_groups).mpr
        (fun g hg => (trimGroup_ok_iff g).mpr (hidx g hg))
      rw [htrim] at hrr
      cases hrr
  · have hidx : ∀ g ∈ line.phonological_groups, ∀ idxs, g.synalepha_index = some idxs → idxs ≠ [] :=
      fun g hg => (trimGroup_ok_iff g).mp
        ((exceptMapM_ok_iff trimGroup line.phonological_groups).mp ⟨syllables, htrim⟩ g hg)
    rcases hfind : ((line.phonological_groups.map (fun g => g.is_stressed)).reverse.findIdx?
        (fun b => b)) with _ | i
    · constructor
      · rintro ⟨r, hr⟩
        simp [stressedEndingOfLine, htrim, hfind] at hr
      · rintro ⟨-, g, hg, hst⟩
        have hsome : ((line.phonological_groups.map (fun g => g.is_stressed)).reverse.findIdx?
            (fun b => b)).isSome := by
          rw [findIdx_bool_isSome_iff]
          refine ⟨true, ?_, rfl⟩
          rw [List.mem_reverse]
          exact List.mem_map.mpr ⟨g, hg, hst⟩
        rw [hfind] at hsome
        cases hsome
    · constructor
      · intro _
        refine ⟨hidx, ?_⟩
        have hsome : ((line.phonological_groups.map (fun g => g.is_stressed)).reverse.findIdx?
            (fun b => b)).isSome := by rw [hfind]; rfl
        rw [findIdx_bool_isSome_iff] at hsome
        obtain ⟨b, hb, hbt⟩ := hsome
        rw [List.mem_reverse] at hb
        obtain ⟨g, hg, hgb⟩ := List.mem_map.mp hb
        exact ⟨g, hg, by rw [hgb, hbt]⟩
      · intro _
        rcases hval : stressedEndingOfLine line with e | r
        · exfalso
          simp [stressedEndingOfLine, htrim, hfind] at hval
        · exact ⟨r, rfl⟩

/-- Claim C10: `get_stressed_endings` fails on any input containing a line
with no stressed phonological group, and succeeds on inputs whose lines all
have a stressed group (with every `synalepha_index` present nonempty, as is
the case for every group the pipeline produces). -/
theorem claim_C10 :
    (∀ lines : List RhythmResult,
      (∃ line ∈ lines, ∀ g ∈ line.phonological_groups, g.is_stressed = false) →
      ∀ r, get_stressed_endings lines ≠ Except.ok r) ∧
    (∀ lines : List RhythmResult,
      (∀ line ∈ lines,
        (∀ g ∈ line.phonological_groups, ∀ idxs, g.synalepha_index = some idxs → idxs ≠ []) ∧
        ∃ g ∈ line.phonological_groups, g.is_stressed = true) →
      ∃ r, get_stressed_endings lines = Except.ok r) := by
  constructor
  · rintro lines ⟨line, hline, hall⟩ r hr
    obtain ⟨y, hy⟩ := (exceptMapM_ok_iff stressedEndingOfLine lines).mp ⟨r, hr⟩ line hline
    obtain ⟨-, g, hg, hst⟩ := (stressedEndingOfLine_ok_iff line).mp ⟨y, hy⟩
    rw [hall g hg] at hst
    cases hst
  · intro lines h
    exact (exceptMapM_ok_iff stressedEndingOfLine lines).mpr
      (fun line hline => (stressedEndingOfLine_ok_iff line).mpr (h line hline))

/-- A line with no stressed group, and a well-formed line, for the C10
witness. -/
def c10Bad : List RhythmResult :=
  [{ phonological_groups := [{ syllable := pys "de", is_stressed := false }],
     rhythm := none, rhythmical_length := 1 }]

def c10Good : List RhythmResult :=
  [{ phonological_groups := [{ syllable := pys "sol", is_stressed := true }],
     rhythm := none, rhythmical_length := 2 }]

/-- Witness for C10 at concrete inputs. -/
theorem claim_C10_witness :
    (∀ r, get_stressed_endings c10Bad ≠ Except.ok r) ∧
    (∃ r, get_stressed_endings c10Good = Except.ok r) :=
  ⟨claim_C10.1 c10Bad (by decide), claim_C10.2 c10Good (by decide)⟩

/-- The override disjunction of the monosyllable branch of
`get_word_stress`, as a standalone predicate. -/
def monoOverride (s : PyStr) (pos : PyStr) (tag : TagMap) : Prop :=
  s.map pyLower ∈ STRESSED_UNACCENTED_MONOSYLLABLES
    ∨ (pos ≠ pys "DET" ∧ pos ≠ pys "PRON" ∧ pos ≠ pys "ADP")
    ∨ (pos = pys "PRON" ∧ tagGet tag (pys "Case") = some (pys "Nom"))
    ∨ (pos = pys "DET" ∧ tagGet tag (pys "Definite") = some (pys "Ind"))


instance monoOverrideDec (s pos : PyStr) (tag : TagMap) : Decidable (monoOverride s pos tag) := by
  unfold monoOverride
  infer_instance

/-- The monosyllable stress position computed by `get_word_stress`. -/
def monoSP (s : PyStr) (pos : PyStr) (tag : TagMap) : Int :=
  if s.map pyLower ∉ UNSTRESSED_UNACCENTED_MONOSYLLABLES ∧ monoOverride s pos tag then -1 else 0

/-- Monosyllable evaluation of `get_word_stress`, stressed case. -/
theorem get_word_stress_mono_stressed (fd : PyStr → Option PyStr) (ad : PyStr → List PyStr)
    (word pos : PyStr) (tag : TagMap) (s : PyStr)
    (h : (syllabify fd ad word).fst = [s])
    (hc1 : s.map pyLower ∉ UNSTRESSED_UNACCENTED_MONOSYLLABLES)
    (hc2 : monoOverride s pos tag) :
    get_word_stress fd ad word pos tag = Except.ok
      { word := [{ syllable := s, is_stressed := true, has_sinaeresis := false }],
        stress_position := -1 } := by
  simp only [monoOverride] at hc2
  simp [get_word_stress, h, hc1, hc2, markStress, List.enum]

/-- Monosyllable evaluation of `get_word_stress`, unstressed case. -/
theorem get_word_stress_mono_unstressed (fd : PyStr → Option PyStr) (ad : PyStr → List PyStr)
    (word pos : PyStr) (tag : TagMap) (s : PyStr)
    (h : (syllabify fd ad word).fst = [s])
    (hc : ¬(s.map pyLower ∉ UNSTRESSED_UNACCENTED_MONOSYLLABLES ∧ monoOverride s pos tag)) :
    get_word_stress fd ad word pos tag = Except.ok
      { word := [{ syllable := s, is_stressed := false, has_sinaeresis := false }],
        stress_position := 0 } := by
  simp only [get_word_stress, h]
  split
  · split
    · next hcond => exact absurd (by simpa [monoOverride] using hcond) hc
    · simp [markStress, List.enum]
  · next hlen => simp at hlen

/-- Claim C3, amended: for every one-syllable word, `get_word_stress`
returns `stress_position = 0` exactly when the lowercase syllable is in the
unstressed-function-word set *or* no override condition holds, and `-1`
(the only other value) exactly when the syllable is outside the unstressed
set *and* some override condition holds. -/
theorem claim_C3_amended (fd : PyStr → Option PyStr) (ad : PyStr → List PyStr)
    (word pos : PyStr) (tag : TagMap) (s : PyStr)
    (h : (syllabify fd ad word).fst = [s]) :
    ∃ r, get_word_stress fd ad word pos tag = Except.ok r ∧
      (r.stress_position = 0 ∨ r.stress_position = -1) ∧
      (r.stress_position = 0 ↔
        (s.map pyLower ∈ UNSTRESSED_UNACCENTED_MONOSYLLABLES ∨ ¬monoOverride s pos tag)) ∧
      (r.stress_position = -1 ↔
        (s.map pyLower ∉ UNSTRESSED_UNACCENTED_MONOSYLLABLES ∧ monoOverride s pos tag)) := by
  by_cases hc : s.map pyLower ∉ UNSTRESSED_UNACCENTED_MONOSYLLABLES ∧ monoOverride s pos tag
  · refine ⟨_, get_word_stress_mono_stressed fd ad word pos tag s h hc.1 hc.2,
      Or.inr rfl, ?_, ?_⟩
    · constructor
      · intro h0
        exact absurd h0 (by simp)
      · intro habs
        rcases habs with h1 | h2
        · exact absurd h1 hc.1
        · exact absurd hc.2 h2
    · exact ⟨fun _ => hc, fun _ => rfl⟩
  · refine ⟨_, get_word_stress_mono_unstressed fd ad word pos tag s h hc, Or.inl rfl, ?_, ?_⟩
    · refine ⟨fun _ => ?_, fun _ => rfl⟩
      rw [not_and_or, not_not] at hc
      exact hc
    · constructor
      · intro h1
        exact absurd h1 (by simp)
      · intro habs
        exact absurd habs hc
  
/-- Witness for the amended C3 at the concrete input `con` / `ADP`. -/
theorem claim_C3_amended_witness :
    (syllabify fd0 ad0 (pys "con")).fst = [pys "con"] ∧
    ∃ r, get_word_stress fd0 ad0 (pys "con") (pys "ADP") [] = Except.ok r ∧
      (r.stress_position = 0 ∨ r.stress_position = -1) ∧
      (r.stress_position = 0 ↔
        ((pys "con").map pyLower ∈ UNSTRESSED_UNACCENTED_MONOSYLLABLES
          ∨ ¬monoOverride (pys "con") (pys "ADP") [])) ∧
      (r.stress_position = -1 ↔
        ((pys "con").map pyLower ∉ UNSTRESSED_UNACCENTED_MONOSYLLABLES
          ∧ monoOverride (pys "con") (pys "ADP") [])) :=
  ⟨by decide, claim_C3_amended fd0 ad0 (pys "con") (pys "ADP") [] (pys "con") (by decide)⟩

/-!
## Claim C1: round-trip of the syllabifier

Every stage of `syllabify`'s algorithmic path only inserts or deletes
hyphens, so the concatenation of the final fragments is the input word with
its hyphens removed.
-/

/-- The non-hyphen characters of a string. -/
def stripH (l : PyStr) : PyStr := l.filter (fun c => c ≠ '-')

theorem stripH_append (a b : PyStr) : stripH (a ++ b) = stripH a ++ stripH b := by
  simp [stripH, List.filter_append]

theorem stripH_insertHyphen (w : PyStr) (i : Nat) :
    stripH (insertHyphen w i) = stripH w := by
  have : w = w.take i ++ w.drop i := (List.take_append_drop i w).symm
  rw [insertHyphen]
  calc stripH (w.take i ++ '-' :: w.drop i)
      = stripH (w.take i) ++ stripH ('-' :: w.drop i) := stripH_append _ _
    _ = stripH (w.take i) ++ stripH (w.drop i) := by simp [stripH]
    _ = stripH (w.take i ++ w.drop i) := (stripH_append _ _).symm
    _ = stripH w := by rw [List.take_append_drop]

theorem stripH_applySplitRule (f : PyStr → Option Nat) (w : PyStr) :
    stripH (applySplitRule f w) = stripH w := by
  unfold applySplitRule
  cases f w with
  | none => rfl
  | some i => exact stripH_insertHyphen w i

theorem stripH_apply_exception_rules (w : PyStr) :
    stripH (apply_exception_rules w) = stripH w := by
  unfold apply_exception_rules
  simp only [stripH_applySplitRule]

theorem stripH_cons (c : Char) (l : PyStr) :
    stripH (c :: l) = if c = '-' then stripH l else c :: stripH l := by
  by_cases hc : c = '-' <;> simp [stripH, List.filter_cons, hc]

theorem stripH_coreScan (w : PyStr) : stripH (coreScan w) = stripH w := by
  induction w with
  | nil => rfl
  | cons c rest ih =>
    rcases hcs : clusterSearch (c :: rest) with _ | k
    · simp only [coreScan, hcs]
      rw [stripH_cons, stripH_cons, ih]
    · simp only [coreScan, hcs]
      by_cases hk : k = 5 ∨ k = 8 ∨ k = 11
      · rw [if_pos hk, stripH_cons, stripH_cons, ih]
      · rw [if_neg hk, stripH_cons,
          show stripH ('-' :: coreScan rest) = stripH (coreScan rest) by
            rw [stripH_cons, if_pos rfl],
          ih, stripH_cons]

/-- Reading a hyphen through `chAt` means the index is in range. -/
theorem chAt_hyphen_get (w : PyStr) (i : Nat) (h : chAt w i = '-') :
    w.get? i = some '-' := by
  unfold chAt at h
  rcases hg : w.get? i with _ | c
  · rw [List.getD_eq_getElem?_getD, ← List.get?_eq_getElem?, hg] at h
    simp only [Option.getD_none] at h
    exact absurd h (by decide)
  · rw [List.getD_eq_getElem?_getD, ← List.get?_eq_getElem?, hg] at h
    simp only [Option.getD_some] at h
    rw [h]

theorem stripH_removeHyphenAfter (w : PyStr) (i : Nat) (h : w.get? (i+1) = some '-') :
    stripH (removeHyphenAfter w i) = stripH w := by
  have hw : w = w.take (i+1) ++ '-' :: w.drop (i+2) := by
    conv_lhs => rw [← List.take_append_drop (i+2) w]
    rw [List.take_succ, ← List.get?_eq_getElem?, h]
    simp
  rw [removeHyphenAfter]
  conv_rhs => rw [hw]
  rw [stripH_append, stripH_append]
  simp [stripH]

theorem stripH_consonantClusterSub (w : PyStr) :
    stripH (consonantClusterSub w) = stripH w := by
  unfold consonantClusterSub
  rcases hidx : consonantClusterIdx w with _ | i
  · rfl
  · have hbody : ccBody w i = true := by
      unfold consonantClusterIdx at hidx
      rcases hfind : (List.range (w.length + 1)).reverse.find?
          (fun i => decide (1 ≤ i) && (chAt w (i-1) == '-') && ccBody w i) with _ | j
      · rw [hfind] at hidx
        by_cases hb : ccBody w 0
        · rw [if_pos hb] at hidx
          cases hidx
          exact hb
        · rw [if_neg hb] at hidx
          cases hidx
      · rw [hfind] at hidx
        cases hidx
        have := List.find?_some hfind
        simp only [Bool.and_eq_true] at this
        exact this.2
    have hhy : chAt w (i+1) = '-' := by
      unfold ccBody at hbody
      simp only [Bool.and_eq_true, beq_iff_eq] at hbody
      exact hbody.1.1.2
    exact stripH_removeHyphenAfter w i (chAt_hyphen_get w (i+1) hhy)

theorem stripH_loweringSub (w : PyStr) : stripH (loweringSub w) = stripH w := by
  unfold loweringSub
  rcases hidx : diphIdx loweringBody w with _ | j
  · rfl
  · have hbody : loweringBody w j = true := by
      unfold diphIdx at hidx
      exact List.find?_some hidx
    have hhy : chAt w (j+1) = '-' := by
      unfold loweringBody at hbody
      simp only [Bool.and_eq_true, beq_iff_eq] at hbody
      exact hbody.1.1.1.2
    exact stripH_removeHyphenAfter w j (chAt_hyphen_get w (j+1) hhy)

theorem stripH_raisingSub (w : PyStr) : stripH (raisingSub w) = stripH w := by
  unfold raisingSub
  rcases hidx : diphIdx raisingBody w with _ | j
  · rfl
  · have hbody : raisingBody w j = true := by
      unfold diphIdx at hidx
      exact List.find?_some hidx
    have hhy : chAt w (j+1) = '-' := by
      unfold raisingBody at hbody
      simp only [Bool.and_eq_true, beq_iff_eq] at hbody
      exact hbody.1.1.1.2
    exact stripH_removeHyphenAfter w j (chAt_hyphen_get w (j+1) hhy)

theorem stripH_apply_exception_rules_post (w : PyStr) :
    stripH (apply_exception_rules_post w) = stripH w := by
  unfold apply_exception_rules_post
  simp only [stripH_raisingSub, stripH_loweringSub, stripH_consonantClusterSub]

theorem splitHy_ne_nil (l : PyStr) : splitHy l ≠ [] := by
  cases l with
  | nil => simp [splitHy]
  | cons c rest =>
    rw [splitHy]
    by_cases hc : c = '-'
    · simp [hc]
    · rcases h : splitHy rest with _ | ⟨s, ss⟩ <;> simp [hc, h]

theorem splitHy_flatten (l : PyStr) : (splitHy l).flatten = stripH l := by
  induction l with
  | nil => rfl
  | cons c rest ih =>
    rw [splitHy]
    by_cases hc : c = '-'
    · rw [if_pos hc]
      subst hc
      rw [stripH_cons, if_pos rfl]
      simpa using ih
    · rw [if_neg hc]
      rcases h : splitHy rest with _ | ⟨s, ss⟩
      · exact absurd h (splitHy_ne_nil rest)
      · rw [h] at ih
        simp only [List.flatten_cons] at ih
        rw [stripH_cons, if_neg hc]
        simp only [List.flatten_cons, List.cons_append]
        rw [ih]

theorem flatten_filter_nonempty (l : List PyStr) :
    (l.filter (fun s => !s.isEmpty)).flatten = l.flatten := by
  induction l with
  | nil => rfl
  | cons s ss ih =>
    by_cases hs : s.isEmpty
    · have : s = [] := List.isEmpty_iff.mp hs
      simp [List.filter_cons, hs, this, ih]
    · simp [List.filter_cons, hs, ih]

/-- Claim C1, counterexample: a word containing a hyphen is not
reconstructed (the scan copies the hyphen into the output and the final
split discards it). -/
theorem claim_C1_counterexample :
    ((syllabify fd0 ad0 (pys "a-b")).fst).flatten ≠ pys "a-b" := by decide

/-- Round-trip of the syllabifier on hyphen-free, newline-free words that
are not in the foreign-word dictionary. -/
theorem syllabify_flatten (fd : PyStr → Option PyStr) (ad : PyStr → List PyStr) (w : PyStr)
    (hfd : fd w = none) (hh : ∀ c ∈ w, c ≠ '-') (hn : ∀ c ∈ w, c ≠ '\n') :
    ((syllabify fd ad w).fst).flatten = w := by
  have houtput : stripH (apply_exception_rules_post (coreScan (apply_exception_rules w)))
      = stripH w := by
    rw [stripH_apply_exception_rules_post, stripH_coreScan, stripH_apply_exception_rules]
  have hw : stripH w = w := by
    apply List.filter_eq_self.mpr
    intro c hc
    simp [hh c hc]
  unfold syllabify
  rw [hfd]
  simp only
  rw [flatten_filter_nonempty, splitHy_flatten, houtput, hw]

/-- Claim C1, amended: for every word without hyphens (and without
newlines, which the source's regexes treat specially) that is not in the
foreign-word dictionary, the concatenation of `syllabify`'s fragments is
the original word. -/
theorem claim_C1_amended (fd : PyStr → Option PyStr) (ad : PyStr → List PyStr) (w : PyStr)
    (hfd : fd w = none) (hh : ∀ c ∈ w, c ≠ '-') (hn : ∀ c ∈ w, c ≠ '\n') :
    ((syllabify fd ad w).fst).flatten = w :=
  syllabify_flatten fd ad w hfd hh hn

/-- Witness for the amended C1 at the concrete word `caminando`. -/
theorem claim_C1_amended_witness :
    fd0 (pys "caminando") = none ∧
    (∀ c ∈ pys "caminando", c ≠ '-') ∧
    (∀ c ∈ pys "caminando", c ≠ '\n') ∧
    ((syllabify fd0 ad0 (pys "caminando")).fst).flatten = pys "caminando" :=
  ⟨rfl, by decide, by decide,
    claim_C1_amended fd0 ad0 (pys "caminando") rfl (by decide) (by decide)⟩

theorem countP_range_beq (n j : Nat) :
    (List.range n).countP (fun i => i == j) = if j < n then 1 else 0 := by
  induction n with
  | zero => simp
  | succ n ih =>
    rw [List.range_succ, List.countP_append, ih]
    by_cases h1 : j < n
    · have h2 : j < n + 1 := Nat.lt_succ_of_lt h1
      have h3 : ¬(n == j) = true := by simp; omega
      simp [h1, h2, List.countP_cons, h3]
    · by_cases h4 : j = n
      · subst h4
        simp [h1, List.countP_cons]
      · have h5 : ¬ j < n + 1 := by omega
        have h3 : ¬(n == j) = true := by simp; omega
        simp [h1, h5, List.countP_cons, h3]

theorem countP_range_int (n : Nat) (k : Int) :
    (List.range n).countP (fun (i : Nat) => decide ((n : Int) - (i : Int) = k)) =
      if 1 ≤ k ∧ k ≤ (n : Int) then 1 else 0 := by
  by_cases hk : 1 ≤ k ∧ k ≤ (n : Int)
  · rw [if_pos hk]
    have hnn : 0 ≤ (n : Int) - k := by omega
    set j : Nat := ((n : Int) - k).toNat with hj
    have hjk : (j : Int) = (n : Int) - k := Int.toNat_of_nonneg hnn
    have hcong : ∀ i ∈ List.range n,
        ((fun (i : Nat) => decide ((n : Int) - (i : Int) = k)) i = true ↔ (i == j) = true) := by
      intro i hi
      have hin : i < n := List.mem_range.mp hi
      simp only [decide_eq_true_eq, beq_iff_eq]
      omega
    rw [List.countP_congr hcong, countP_range_beq]
    have : j < n := by omega
    rw [if_pos this]
  · rw [if_neg hk]
    rw [List.countP_eq_zero]
    intro i hi
    have hin : i < n := List.mem_range.mp hi
    simp only [decide_eq_true_eq]
    omega

theorem markStress_length (l : List PyStr) (sp : Int) :
    (markStress l sp).length = l.length := by
  simp [markStress]

theorem markStress_count (l : List PyStr) (sp : Int) :
    ((markStress l sp).filter (fun s => s.is_stressed)).length =
      if 1 ≤ -sp ∧ -sp ≤ (l.length : Int) then 1 else 0 := by
  rw [← List.countP_eq_length_filter, markStress, List.countP_map]
  have : ((fun s : Syl => s.is_stressed) ∘ (fun q : Nat × PyStr =>
      ({ syllable := q.2,
         is_stressed := decide ((l.length : Int) - q.1 = -sp),
         has_sinaeresis :=
           match l.get? (q.1 + 1) with
           | some next => sinaeresisPair q.2 next
           | none => false } : Syl))) =
      fun q : Nat × PyStr => decide ((l.length : Int) - q.1 = -sp) := rfl
  rw [this]
  have h2 : l.enum.countP (fun q => decide ((l.length : Int) - q.1 = -sp)) =
      (l.enum.map Prod.fst).countP
        (fun (i : Nat) => decide ((l.length : Int) - (i : Int) = -sp)) := by
    rw [List.countP_map]
    rfl
  rw [h2, List.enum_map_fst, countP_range_int]

theorem countP_bar_joinBar (l : List PyStr) (hbar : ∀ s ∈ l, ∀ c ∈ s, c ≠ '|') :
    (joinBar l).countP (fun c => c == '|') = l.length - 1 := by
  induction l with
  | nil => rfl
  | cons s rest ih =>
    cases rest with
    | nil =>
      have hjs : joinBar [s] = s := by simp [joinBar]
      rw [hjs]
      have : s.countP (fun c => c == '|') = 0 := by
        rw [List.countP_eq_zero]
        intro c hc
        simp only [beq_iff_eq]
        exact hbar s (by simp) c hc
      rw [this]
      rfl
    | cons s2 rest2 =>
      have hj : joinBar (s :: s2 :: rest2) = s ++ '|' :: joinBar (s2 :: rest2) := by
        simp [joinBar, List.intersperse_cons_cons]
      rw [hj, List.countP_append]
      have h0 : s.countP (fun c => c == '|') = 0 := by
        rw [List.countP_eq_zero]
        intro c hc
        simp only [beq_iff_eq]
        exact hbar s (by simp) c hc
      rw [h0, List.countP_cons]
      have ihr := ih (fun t ht c hc => hbar t (List.mem_cons_of_mem s ht) c hc)
      rw [ihr]
      simp

theorem goa_bound (l : List PyStr) (hbar : ∀ s ∈ l, ∀ c ∈ s, c ≠ '|') (t : Nat)
    (h : get_orthographic_accent l = some t) : t < l.length := by
  rcases hfind : (joinBar l).findIdx? isAccentChar with _ | i
  · simp [get_orthographic_accent, hfind] at h
  · simp only [get_orthographic_accent, hfind, Option.some.injEq] at h
    have hne : l ≠ [] := by
      intro hnil
      subst hnil
      have : joinBar ([] : List PyStr) = [] := rfl
      rw [this] at hfind
      cases hfind
    have hlen : 1 ≤ l.length := List.length_pos.mpr hne
    have hsub : ((joinBar l).take i).countP (fun c => c == '|') ≤
        (joinBar l).countP (fun c => c == '|') :=
      List.Sublist.countP_le _ (List.take_sublist i (joinBar l))
    rw [countP_bar_joinBar l hbar] at hsub
    have : t ≤ l.length - 1 := h ▸ hsub
    omega

theorem is_paroxytone_ok (l : List PyStr) (hl : l ≠ []) :
    ∃ b, is_paroxytone l = Except.ok b := by
  rcases hlast : l.getLast? with _ | last
  · exact absurd (List.getLast?_eq_none_iff.mp hlast) hl
  · unfold is_paroxytone
    by_cases hcond : (get_orthographic_accent (l.flatten.map (fun c => [c])) = none
        ∨ get_orthographic_accent (l.flatten.map (fun c => [c])) = some 0)
    · rw [if_pos hcond, hlast]
      exact ⟨_, rfl⟩
    · rw [if_neg hcond]
      exact ⟨false, rfl⟩

theorem get_word_stress_multi (fd : PyStr → Option PyStr) (ad : PyStr → List PyStr)
    (word pos : PyStr) (tag : TagMap)
    (hbar : ∀ s ∈ (syllabify fd ad word).fst, ∀ c ∈ s, c ≠ '|')
    (h2 : 2 ≤ (syllabify fd ad word).fst.length) :
    ∃ sp : Int, get_word_stress fd ad word pos tag =
      Except.ok { word := markStress (syllabify fd ad word).fst sp, stress_position := sp } ∧
      1 ≤ -sp ∧ -sp ≤ ((syllabify fd ad word).fst.length : Int) := by
  have hne1 : ¬((syllabify fd ad word).fst.length = 1) := by omega
  have hnil : (syllabify fd ad word).fst ≠ [] := by
    intro hn
    rw [hn] at h2
    simp at h2
  rcases hacc : get_orthographic_accent (syllabify fd ad word).fst with _ | t
  · obtain ⟨b, hb⟩ := is_paroxytone_ok (syllabify fd ad word).fst hnil
    cases b
    · refine ⟨-1, ?_, by omega, by omega⟩
      simp [get_word_stress, hne1, hacc, hb]
    · refine ⟨-2, ?_, by omega, ?_⟩
      · simp [get_word_stress, hne1, hacc, hb]
      · omega
  · have ht : t < (syllabify fd ad word).fst.length :=
      goa_bound (syllabify fd ad word).fst hbar t hacc
    refine ⟨-(((syllabify fd ad word).fst.length : Int) - t), ?_, by omega, by omega⟩
    simp [get_word_stress, hne1, hacc]

/-- Claim C2: whenever the word yields at least one syllable (every
nonempty alphabetic word does), the output has exactly one stressed
syllable if the word is multi-syllable or its stress position is nonzero,
and none if the stress position is zero. -/
theorem claim_C2 (fd : PyStr → Option PyStr) (ad : PyStr → List PyStr)
    (w pos : PyStr) (tag : TagMap)
    (hfd : fd w = none) (hw : w ≠ [])
    (hchars : ∀ c ∈ w, c ≠ '-' ∧ c ≠ '|' ∧ c ≠ '\n') :
    ∃ r, get_word_stress fd ad w pos tag = Except.ok r ∧
      ((1 < r.word.length ∨ r.stress_position ≠ 0) →
        (r.word.filter (fun s => s.is_stressed)).length = 1) ∧
      (r.stress_position = 0 →
        (r.word.filter (fun s => s.is_stressed)).length = 0) := by
  have hflat := syllabify_flatten fd ad w hfd
    (fun c hc => (hchars c hc).1) (fun c hc => (hchars c hc).2.2)
  have hbar : ∀ s ∈ (syllabify fd ad w).fst, ∀ c ∈ s, c ≠ '|' := by
    intro s hs c hc
    have hm : c ∈ ((syllabify fd ad w).fst).flatten := List.mem_flatten.mpr ⟨s, hs, hc⟩
    rw [hflat] at hm
    exact (hchars c hm).2.1
  have hLne : (syllabify fd ad w).fst ≠ [] := by
    intro h
    rw [h] at hflat
    exact hw hflat.symm
  have hlen1 : 1 ≤ (syllabify fd ad w).fst.length := List.length_pos.mpr hLne
  rcases eq_or_lt_of_le hlen1 with h1 | h2
  · obtain ⟨s, hs⟩ := List.length_eq_one.mp h1.symm
    by_cases hc : s.map pyLower ∉ UNSTRESSED_UNACCENTED_MONOSYLLABLES ∧ monoOverride s pos tag
    · refine ⟨_, get_word_stress_mono_stressed fd ad w pos tag s hs hc.1 hc.2, ?_, ?_⟩
      · intro _
        simp [List.filter]
      · intro h0
        exact absurd h0 (by simp)
    · refine ⟨_, get_word_stress_mono_unstressed fd ad w pos tag s hs hc, ?_, ?_⟩
      · intro hpre
        rcases hpre with hlen | hsp
        · simp at hlen
        · exact absurd rfl hsp
      · intro _
        simp [List.filter]
  · obtain ⟨sp, heq, hb1, hb2⟩ := get_word_stress_multi fd ad w pos tag hbar h2
    refine ⟨_, heq, ?_, ?_⟩
    · intro _
      simp only [markStress_count]
      rw [if_pos ⟨hb1, hb2⟩]
    · intro h0
      simp only at h0
      rw [h0] at hb1
      exact absurd hb1 (by decide)

/-- Witness for C2 at the concrete word `mano`. -/
theorem claim_C2_witness :
    fd0 (pys "mano") = none ∧ pys "mano" ≠ [] ∧
    (∀ c ∈ pys "mano", c ≠ '-' ∧ c ≠ '|' ∧ c ≠ '\n') ∧
    ∃ r, get_word_stress fd0 ad0 (pys "mano") (pys "NOUN") [] = Except.ok r ∧
      ((1 < r.word.length ∨ r.stress_position ≠ 0) →
        (r.word.filter (fun s => s.is_stressed)).length = 1) ∧
      (r.stress_position = 0 →
        (r.word.filter (fun s => s.is_stressed)).length = 0) :=
  ⟨rfl, by decide, by decide,
    claim_C2 fd0 ad0 (pys "mano") (pys "NOUN") [] rfl (by decide) (by decide)⟩

/-- Modelled from the spec: `synalephaWord` as `get_stressed_endings`
expects its input, recording on each merged group the index of the last
character contributed by the first of the two merged syllables
(the group's last internal merge boundary), so that
`syllable[synalepha_index[-1] + 1:]` is exactly the portion belonging to
the next word. -/
def specSynalephaWord : List Syl → Option (List Syl) → Except PyExn (List Syl × Option (List Syl))
  | [], next => pure ([], next)
  | s :: rest, next =>
    if s.has_synalepha then
      match next with
      | none => throw PyExn.indexError
      | some [] => throw PyExn.indexError
      | some (n :: ns) => do
        let (out, rem) ← specSynalephaWord rest (some ns)
        pure ({ is_stressed := s.is_stressed || n.is_stressed,
                syllable := s.syllable ++ n.syllable,
                has_synalepha := true,
                synalepha_index := some [s.syllable.length - 1] } :: out, rem)
    else do
      let (out, rem) ← specSynalephaWord rest next
      pure (s :: out, rem)

/-- Modelled from the spec: outer loop of the boundary-recording merger. -/
def specSynGo : List Syl → List (List Syl) → Except PyExn (List Syl)
  | w, [] => do
    let (out, _) ← specSynalephaWord w none
    pure out
  | w, w2 :: rest => do
    let (out, w2m) ← specSynalephaWord w (some w2)
    let tail ← specSynGo (w2m.getD []) rest
    pure (out ++ tail)

/-- Modelled from the spec: `get_synalephas` as the rhyme extractor needs
it, i.e. with merge boundaries recorded under `synalepha_index`. -/
def spec_get_synalephas : List (List Syl) → Except PyExn (List Syl)
  | [] => pure []
  | w :: rest => specSynGo w rest

/-- The two-word document `mano alta` (C5's failing input): `mano` ends in
a vowel and `alta` begins with one, so the pipeline merges `no` and `al`
into one phonological group by synalepha. -/
def c5Doc : List SpacyToken :=
  [{ text := pys "mano", is_alpha := true, pos := pys "NOUN", tag := [] },
   { text := pys "alta", is_alpha := true, pos := pys "ADJ", tag := [] }]

/-- The stressed, synalepha-marked word syllables `get_syllables` builds
for `c5Doc`: `ma`(+) `no`(marked) / `al`(+) `ta`. -/
def c5Words : List (List Syl) :=
  [[{ syllable := pys "ma", is_stressed := true },
    { syllable := pys "no", is_stressed := false, has_synalepha := true }],
   [{ syllable := pys "al", is_stressed := true },
    { syllable := pys "ta", is_stressed := false }]]

/-- The phonological groups the pipeline produces for `c5Doc`: the merged
group `noal` carries no `synalepha_index` key (`get_synalephas` never
writes one). -/
def c5Groups : List Syl :=
  [{ syllable := pys "ma", is_stressed := true },
   { syllable := pys "noal", is_stressed := true, has_synalepha := true },
   { syllable := pys "ta", is_stressed := false }]

/-- `c5Groups` wrapped as the line dictionary `get_stressed_endings`
reads (only `phonological_groups` matters to it). -/
def c5Line : RhythmResult :=
  { phonological_groups := c5Groups, rhythm := none, rhythmical_length := 3 }

/-- The groups as claim C5 expects them, with the merge boundary recorded:
`noal` carries `synalepha_index = [1]`. -/
def c5SpecGroups : List Syl :=
  [{ syllable := pys "ma", is_stressed := true },
   { syllable := pys "noal", is_stressed := true, has_synalepha := true,
     synalepha_index := some [1] },
   { syllable := pys "ta", is_stressed := false }]

/-- `c5SpecGroups` wrapped as a line dictionary. -/
def c5SpecLine : RhythmResult :=
  { phonological_groups := c5SpecGroups, rhythm := none, rhythmical_length := 3 }

/-- Claim C5 (code bug): `get_stressed_endings` trims a merged group down
to the part after its last merge boundary only when the group carries a
`synalepha_index` key, but `get_synalephas` — the sole producer of merged
phonological groups — never writes that key.  On `mano alta` the pipeline's
merged group is `noal` with no `synalepha_index` (conjuncts 1–3), so the
extractor returns the ending `[noal, ta]`, which still contains the `no` of
the non-rhyming word `mano`; with the boundary recorded as the claim (and
the extractor's own trimming logic) expects, the same extractor would
return `[al, ta]` (conjuncts 4–5).  The right-most-stress index, group
count and negative offset agree on both sides. -/
theorem claim_C5 :
    (get_syllables fd0 ad0 c5Doc).toOption.map
        (fun ts => ts.filterMap (fun t => t.word)) = some c5Words ∧
    (get_scansion fd0 ad0 c5Doc false (pys "pattern") []).toOption.map
        (fun ls => ls.map (fun l => l.rhythm_data.phonological_groups)) =
      some [c5Groups] ∧
    get_stressed_endings [c5Line] =
      Except.ok [([pys "noal", pys "ta"], 3, -2)] ∧
    spec_get_synalephas c5Words = Except.ok c5SpecGroups ∧
    get_stressed_endings [c5SpecLine] =
      Except.ok [([pys "al", pys "ta"], 3, -2)] ∧
    (pys "noal" : PyStr) ≠ pys "al" :=
  ⟨by decide, by decide, rfl, rfl, rfl, by decide⟩

/-- An element already `some v` at a position survives appending one
element. -/
theorem get_append_one {α : Type} (l : List α) (y v : α) (p : Nat)
    (h : l.get? p = some v) : (l ++ [y]).get? p = some v := by
  obtain ⟨hp, -⟩ := List.get?_eq_some.mp h
  rw [List.get?_append hp]
  exact h

/-- Resetting any position to the value already held at `p` preserves the
entry at `p`. -/
theorem get_set_sentinel {α : Type} (l : List α) (q p : Nat) (v : α)
    (h : l.get? p = some v) : (l.set q v).get? p = some v := by
  rcases eq_or_ne q p with rfl | hne
  · obtain ⟨hp, -⟩ := List.get?_eq_some.mp h
    exact List.get?_set_eq_of_lt v hp
  · rw [List.get?_set_ne _ _ hne]
    exact h

/-- Splitting the `assign_letter_codes` loop over an appended list. -/
theorem alcGo_append (codes : List PyStr) (u : List Nat) (off : Option Int)
    (l1 l2 : List Nat) : ∀ (i : Nat) (st : ALCState),
    alcGo codes u off i st (l1 ++ l2) =
      alcGo codes u off (i + l1.length) (alcGo codes u off i st l1) l2 := by
  induction l1 with
  | nil => intro i st; simp [alcGo]
  | cons a l ih =>
    intro i st
    show alcGo codes u off (i + 1) (alcStep codes u off i st a) (l ++ l2) = _
    rw [ih (i + 1)]
    simp only [List.length_cons]
    have h : i + 1 + l.length = i + (l.length + 1) := by omega
    rw [h]
    rfl

/-- Every iteration of `assign_letter_codes` appends exactly one rhyme
entry and one ending. -/
theorem alcStep_lengths (codes : List PyStr) (u : List Nat) (off : Option Int)
    (index : Nat) (st : ALCState) (rhyme : Nat) :
    (alcStep codes u off index st rhyme).rhymes.length = st.rhymes.length + 1 ∧
    (alcStep codes u off index st rhyme).endings.length = st.endings.length + 1 := by
  unfold alcStep
  split
  · simp
  · dsimp only
    split
    · split
      · simp
      · simp
    · simp

/-- Lengths of the accumulators after running the loop. -/
theorem alcGo_lengths (codes : List PyStr) (u : List Nat) (off : Option Int)
    (l : List Nat) : ∀ (i : Nat) (st : ALCState),
    (alcGo codes u off i st l).rhymes.length = st.rhymes.length + l.length ∧
    (alcGo codes u off i st l).endings.length = st.endings.length + l.length := by
  induction l with
  | nil => intro i st; simp [alcGo]
  | cons a l ih =>
    intro i st
    obtain ⟨h1, h2⟩ := ih (i + 1) (alcStep codes u off i st a)
    obtain ⟨h3, h4⟩ := alcStep_lengths codes u off i st a
    constructor
    · simp only [alcGo, h1, h3, List.length_cons]
      omega
    · simp only [alcGo, h2, h4, List.length_cons]
      omega

/-- A step on a different rhyme id leaves an id's last-occurrence anchor
unchanged. -/
theorem alcStep_lookup_ne (codes : List PyStr) (u : List Nat) (off : Option Int)
    (index : Nat) (st : ALCState) (rhyme r : Nat) (h : rhyme ≠ r) :
    (alcStep codes u off index st rhyme).last_found.lookup r =
      st.last_found.lookup r := by
  have hbeq : (r == rhyme) = false := beq_eq_false_iff_ne.mpr (Ne.symm h)
  unfold alcStep
  split
  · rfl
  · dsimp only
    split
    · split <;> simp [List.lookup, hbeq]
    · simp [List.lookup, hbeq]

/-- A step on an id outside the unrhymed set makes the current index the
id's anchor. -/
theorem alcStep_lookup_self (codes : List PyStr) (u : List Nat) (off : Option Int)
    (index : Nat) (st : ALCState) (rhyme : Nat) (h : rhyme ∉ u) :
    (alcStep codes u off index st rhyme).last_found.lookup rhyme = some index := by
  unfold alcStep
  rw [if_neg h]
  dsimp only
  split
  · split <;> simp [List.lookup]
  · simp [List.lookup]

/-- Running the loop over ids other than `r` leaves `r`'s anchor alone. -/
theorem alcGo_lookup_notin (codes : List PyStr) (u : List Nat) (off : Option Int)
    (r : Nat) (l : List Nat) (hr : r ∉ l) : ∀ (i : Nat) (st : ALCState),
    (alcGo codes u off i st l).last_found.lookup r = st.last_found.lookup r := by
  induction l with
  | nil => intro i st; rfl
  | cons a l ih =>
    intro i st
    have ha : a ≠ r := fun he => hr (he ▸ List.mem_cons_self a l)
    have hl : r ∉ l := fun hm => hr (List.mem_cons_of_mem a hm)
    show (alcGo codes u off (i + 1) (alcStep codes u off i st a) l).last_found.lookup r = _
    rw [ih hl, alcStep_lookup_ne codes u off i st a r ha]

/-- After the loop passes the last occurrence of an id outside the
unrhymed set, the id's anchor is that occurrence's index. -/
theorem alcGo_anchor (codes : List PyStr) (u : List Nat) (off : Option Int)
    (r : Nat) (l1 l2 : List Nat) (hu : r ∉ u) (hl2 : r ∉ l2)
    (i : Nat) (st : ALCState) :
    (alcGo codes u off i st (l1 ++ r :: l2)).last_found.lookup r =
      some (i + l1.length) := by
  rw [alcGo_append]
  show (alcGo codes u off (i + l1.length + 1)
    (alcStep codes u off (i + l1.length) _ r) l2).last_found.lookup r = _
  rw [alcGo_lookup_notin codes u off r l2 hl2,
    alcStep_lookup_self codes u off (i + l1.length) _ r hu]

/-- Entries already reset to the unrhymed sentinel and the empty ending
survive one step: every later mutation is an append at the end or a reset
to that same sentinel pair. -/
theorem alcStep_preserve (codes : List PyStr) (u : List Nat) (off : Option Int)
    (index : Nat) (st : ALCState) (rhyme : Nat) (p : Nat)
    (h1 : st.rhymes.get? p = some (-1)) (h2 : st.endings.get? p = some []) :
    (alcStep codes u off index st rhyme).rhymes.get? p = some (-1) ∧
    (alcStep codes u off index st rhyme).endings.get? p = some [] := by
  unfold alcStep
  split
  · exact ⟨get_append_one _ _ _ _ h1, get_append_one _ _ _ _ h2⟩
  · dsimp only
    split
    · split
      · exact ⟨get_append_one _ _ _ _ (get_set_sentinel _ _ _ _ h1),
          get_append_one _ _ _ _ (get_set_sentinel _ _ _ _ h2)⟩
      · exact ⟨get_append_one _ _ _ _ h1, get_append_one _ _ _ _ h2⟩
    · exact ⟨get_append_one _ _ _ _ h1, get_append_one _ _ _ _ h2⟩

/-- The offset branch of one step: when the current id's anchor lies more
than `off` lines back, the step resets the anchored entry *and* appends the
sentinel and the empty ending for the current line as well. -/
theorem alcStep_gap (codes : List PyStr) (u : List Nat) (off : Int)
    (j : Nat) (st : ALCState) (r : Nat) (i : Nat)
    (hu : r ∉ u) (hlook : st.last_found.lookup r = some i)
    (hgap : (j : Int) - (i : Int) > off)
    (hlen1 : st.rhymes.length = j) (hlen2 : st.endings.length = j)
    (hi : i < j) :
    (alcStep codes u (some off) j st r).rhymes.get? i = some (-1) ∧
    (alcStep codes u (some off) j st r).endings.get? i = some [] ∧
    (alcStep codes u (some off) j st r).rhymes.get? j = some (-1) ∧
    (alcStep codes u (some off) j st r).endings.get? j = some [] := by
  have hdec : decide ((j : Int) - (i : Int) > off) = true := decide_eq_true hgap
  unfold alcStep
  rw [if_neg hu]
  dsimp only
  rw [hlook]
  dsimp only
  rw [if_pos hdec]
  dsimp only
  have hi1 : i < st.rhymes.length := hlen1 ▸ hi
  have hi2 : i < st.endings.length := hlen2 ▸ hi
  refine ⟨?_, ?_, ?_, ?_⟩
  · rw [List.get?_append (by simpa using hi1)]
    exact List.get?_set_eq_of_lt _ hi1
  · rw [List.get?_append (by simpa using hi2)]
    exact List.get?_set_eq_of_lt _ hi2
  · have hx : (st.rhymes.set i (-1)).length = j := by simpa using hlen1
    rw [← hx]
    exact List.get?_concat_length _ _
  · have hx : (st.endings.set i []).length = j := by simpa using hlen2
    rw [← hx]
    exact List.get?_concat_length _ _

/-- Sentinel entries survive the rest of the loop. -/
theorem alcGo_preserve (codes : List PyStr) (u : List Nat) (off : Option Int)
    (l : List Nat) : ∀ (i : Nat) (st : ALCState) (p : Nat),
    st.rhymes.get? p = some (-1) → st.endings.get? p = some [] →
    (alcGo codes u off i st l).rhymes.get? p = some (-1) ∧
    (alcGo codes u off i st l).endings.get? p = some [] := by
  induction l with
  | nil => intro i st p h1 h2; exact ⟨h1, h2⟩
  | cons a l ih =>
    intro i st p h1 h2
    obtain ⟨h1m, h2m⟩ := alcStep_preserve codes u off i st a p h1 h2
    exact ih (i + 1) (alcStep codes u off i st a) p h1m h2m

/-- Claim C6, counterexample: with codes-to-endings map `x`/`y`, code
numbers `1, 0, 1`, no unrhymed singletons and `offset = 1`, the id `1`
recurs at index 2 with a gap of 2 lines: the code resets the earlier
occurrence (index 0) *and* marks the current occurrence (index 2) unrhymed
with an empty ending, where the claim says the current occurrence keeps its
rhyme id letter (`0`) and its own ending text (`y`). -/
theorem claim_C6_counterexample :
    assign_letter_codes [pys "x", pys "y"] [1, 0, 1] [] (some 1) =
      ([-1, 1, -1], [[], pys "x", []]) ∧
    ((2 : Int) - 0 > 1) ∧
    ((assign_letter_codes [pys "x", pys "y"] [1, 0, 1] [] (some 1)).1.get? 2 ≠ some 0) ∧
    ((assign_letter_codes [pys "x", pys "y"] [1, 0, 1] [] (some 1)).2.get? 2 ≠
      some (pys "y")) := by decide

/-- Claim C6, amended: when a rhyme id `r` outside the unrhymed-singleton
set recurs (previous occurrence at index `|p1|`, current occurrence at
index `|p1| + |p2| + 1` with no occurrence of `r` in between) and the gap
`|p2| + 1` exceeds the configured offset, the final output of
`assign_letter_codes` holds the unrhymed sentinel `-1` and the empty
ending at *both* occurrences — the earlier one retroactively, the current
one as well (contrary to the original claim) — and the current index
becomes the id's new last-occurrence anchor. -/
theorem claim_C6_amended (codes : List PyStr) (u : List Nat) (off : Int)
    (p1 p2 post : List Nat) (r : Nat)
    (hu : r ∉ u) (hp2 : r ∉ p2)
    (hgap : (p2.length : Int) + 1 > off) :
    ((assign_letter_codes codes ((p1 ++ r :: p2) ++ r :: post) u (some off)).1.get?
        p1.length = some (-1)) ∧
    ((assign_letter_codes codes ((p1 ++ r :: p2) ++ r :: post) u (some off)).2.get?
        p1.length = some []) ∧
    ((assign_letter_codes codes ((p1 ++ r :: p2) ++ r :: post) u (some off)).1.get?
        (p1.length + p2.length + 1) = some (-1)) ∧
    ((assign_letter_codes codes ((p1 ++ r :: p2) ++ r :: post) u (some off)).2.get?
        (p1.length + p2.length + 1) = some []) ∧
    ((alcGo codes u (some off) 0 ⟨[], [], [], []⟩
        ((p1 ++ r :: p2) ++ [r])).last_found.lookup r =
      some (p1.length + p2.length + 1)) := by
  have hL1 : (p1 ++ r :: p2).length = p1.length + p2.length + 1 := by
    simp only [List.length_append, List.length_cons]
    omega
  have hanchor :
      (alcGo codes u (some off) 0 ⟨[], [], [], []⟩
        ((p1 ++ r :: p2) ++ [r])).last_found.lookup r =
        some (p1.length + p2.length + 1) := by
    have h := alcGo_anchor codes u (some off) r (p1 ++ r :: p2) [] hu
      (List.not_mem_nil r) 0 ⟨[], [], [], []⟩
    rw [Nat.zero_add, hL1] at h
    exact h
  have hlook := alcGo_anchor codes u (some off) r p1 p2 hu hp2 0 ⟨[], [], [], []⟩
  rw [Nat.zero_add] at hlook
  have hlens := alcGo_lengths codes u (some off) (p1 ++ r :: p2) 0 ⟨[], [], [], []⟩
  have hlen1 : (alcGo codes u (some off) 0 ⟨[], [], [], []⟩
      (p1 ++ r :: p2)).rhymes.length = (p1 ++ r :: p2).length := by
    rw [hlens.1]
    simp
  have hlen2 : (alcGo codes u (some off) 0 ⟨[], [], [], []⟩
      (p1 ++ r :: p2)).endings.length = (p1 ++ r :: p2).length := by
    rw [hlens.2]
    simp
  have hgap2 : ((p1 ++ r :: p2).length : Int) - (p1.length : Int) > off := by
    rw [hL1]
    push_cast
    omega
  have hi : p1.length < (p1 ++ r :: p2).length := by
    rw [hL1]
    omega
  have hg := alcStep_gap codes u off ((p1 ++ r :: p2).length)
    (alcGo codes u (some off) 0 ⟨[], [], [], []⟩ (p1 ++ r :: p2)) r p1.length
    hu hlook hgap2 hlen1 hlen2 hi
  have hkeep1 := alcGo_preserve codes u (some off) post ((p1 ++ r :: p2).length + 1)
    (alcStep codes u (some off) ((p1 ++ r :: p2).length)
      (alcGo codes u (some off) 0 ⟨[], [], [], []⟩ (p1 ++ r :: p2)) r)
    p1.length hg.1 hg.2.1
  have hkeep2 := alcGo_preserve codes u (some off) post ((p1 ++ r :: p2).length + 1)
    (alcStep codes u (some off) ((p1 ++ r :: p2).length)
      (alcGo codes u (some off) 0 ⟨[], [], [], []⟩ (p1 ++ r :: p2)) r)
    ((p1 ++ r :: p2).length) hg.2.2.1 hg.2.2.2
  unfold assign_letter_codes
  rw [alcGo_append codes u (some off) (p1 ++ r :: p2) (r :: post) 0 ⟨[], [], [], []⟩]
  simp only [alcGo, Nat.zero_add]
  exact ⟨hkeep1.1, hkeep1.2, hL1 ▸ hkeep2.1, hL1 ▸ hkeep2.2, hanchor⟩

/-- Witness for C6 at codes `x`/`y`, code numbers `1, 0, 1`, offset `1`. -/
theorem claim_C6_amended_witness :
    (1 : Nat) ∉ ([] : List Nat) ∧ (1 : Nat) ∉ ([0] : List Nat) ∧
    ((([0] : List Nat).length : Int) + 1 > 1) ∧
    (((assign_letter_codes [pys "x", pys "y"] [1, 0, 1] [] (some 1)).1.get? 0 =
        some (-1)) ∧
     ((assign_letter_codes [pys "x", pys "y"] [1, 0, 1] [] (some 1)).2.get? 0 =
        some []) ∧
     ((assign_letter_codes [pys "x", pys "y"] [1, 0, 1] [] (some 1)).1.get? 2 =
        some (-1)) ∧
     ((assign_letter_codes [pys "x", pys "y"] [1, 0, 1] [] (some 1)).2.get? 2 =
        some []) ∧
     ((alcGo [pys "x", pys "y"] [] (some 1) 0 ⟨[], [], [], []⟩
         [1, 0, 1]).last_found.lookup 1 = some 2)) :=
  ⟨by decide, by decide, by decide,
    claim_C6_amended [pys "x", pys "y"] [] 1 [] [0] [] 1 (by decide) (by decide)
      (by decide)⟩

/-- The letter accumulator of `rhyme_codes_to_letters` only ever grows. -/
theorem rclGo_prefix (sym : Char) : ∀ (rest : List Int) (letters : List Int)
    (acc out : List Char), rclGo sym letters acc rest = Except.ok out →
    acc <+: out := by
  intro rest
  induction rest with
  | nil =>
    intro letters acc out h
    cases h
    exact List.prefix_refl acc
  | cons rhyme rest ih =>
    intro letters acc out h
    simp only [rclGo] at h
    split at h
    · exact List.IsPrefix.trans (List.prefix_append acc [sym]) (ih _ _ _ h)
    · split at h
      · exact List.IsPrefix.trans (List.prefix_append acc _) (ih _ _ _ h)
      · cases h

/-- Scanning past a block of sentinel symbols, the first non-sentinel
letter found is the `a` that follows the block. -/
theorem find_skip_sym (sym : Char) (hsym : sym ≠ 'a') :
    ∀ (acc : List Char), (∀ ch ∈ acc, ch = sym) → ∀ t : List Char,
    ((acc ++ 'a' :: t).find? (fun ch => ch != sym)) = some 'a' := by
  intro acc
  induction acc with
  | nil =>
    intro _ t
    rw [List.nil_append]
    exact List.find?_cons_of_pos _ (by simp [Ne.symm hsym])
  | cons c cs ih =>
    intro hall t
    have hc : c = sym := hall c (List.mem_cons_self c cs)
    rw [List.cons_append, List.find?_cons_of_neg _ (by simp [hc])]
    exact ih (fun ch hch => hall ch (List.mem_cons_of_mem c hch)) t

/-- Starting from an empty letter map and an all-sentinel accumulator, the
first non-sentinel letter of any successful output is `a`: the first found
rhyme id is the first entry of the letter map, so it indexes
`string.ascii_letters` at 0. -/
theorem rclGo_first_letter (sym : Char) (hsym : sym ≠ 'a') :
    ∀ (rest : List Int) (acc out : List Char), (∀ ch ∈ acc, ch = sym) →
    rclGo sym [] acc rest = Except.ok out →
    (out.find? (fun ch => ch != sym)) = none ∨
      (out.find? (fun ch => ch != sym)) = some 'a' := by
  intro rest
  induction rest with
  | nil =>
    intro acc out hacc h
    cases h
    left
    rw [List.find?_eq_none]
    intro x hx
    simp [hacc x hx]
  | cons rhyme rest ih =>
    intro acc out hacc h
    simp only [rclGo] at h
    split at h
    · refine ih (acc ++ [sym]) out ?_ h
      intro ch hch
      rcases List.mem_append.mp hch with h1 | h2
      · exact hacc ch h1
      · simpa using h2
    · rw [if_neg (List.not_mem_nil rhyme), List.nil_append,
        List.indexOf_cons_self] at h
      have hget : ascii_letters.get? (0 : Nat) = some 'a' := rfl
      rw [hget] at h
      obtain ⟨t, ht⟩ := rclGo_prefix sym rest [rhyme] (acc ++ ['a']) out h
      right
      rw [← ht, List.append_assoc, List.singleton_append]
      exact find_skip_sym sym hsym acc hacc t

/-- Claim C7: in any letter string the rhyme coder produces, the first
letter that is not the unrhymed sentinel symbol, if one exists, is `a`
(for any sentinel other than `a` itself; the default sentinel is `-`). -/
theorem claim_C7 (rhymes : List Int) (sym : Char) (hsym : sym ≠ 'a')
    (out : List Char) (c : Char)
    (hok : rhyme_codes_to_letters rhymes sym = Except.ok out)
    (hfind : out.find? (fun ch => ch != sym) = some c) :
    c = 'a' := by
  rcases rclGo_first_letter sym hsym rhymes [] out (by intro ch hch; cases hch) hok
      with hnone | ha
  · rw [hnone] at hfind
    cases hfind
  · rw [ha] at hfind
    cases hfind
    rfl

/-- Witness for C7 on the rhyme codes `-1, 0, 1` with the default
sentinel `-`: output `-ab`, whose first non-sentinel letter is `a`. -/
theorem claim_C7_witness :
    ('-' : Char) ≠ 'a' ∧
    rhyme_codes_to_letters [-1, 0, 1] '-' = Except.ok ['-', 'a', 'b'] ∧
    (['-', 'a', 'b'].find? (fun ch => ch != '-')) = some 'a' ∧ ('a' : Char) = 'a' :=
  ⟨by decide, by rfl, by decide,
    claim_C7 [-1, 0, 1] '-' (by decide) ['-', 'a', 'b'] 'a' (by rfl) (by decide)⟩

/-- The `ranking < best_ranking` update of `analyze_rhyme`'s loop on the
(best ranking, best structure) pair. -/
def arUpdate (st : Nat × Option BestStructure) (cand : Option BestStructure) :
    Nat × Option BestStructure :=
  match cand with
  | none => st
  | some b => if b.rank < st.1 then (b.rank, some b) else st

/-- The candidate one `(assonance, relaxation)` trial proposes: the first
matching catalog entry for that trial's letter string, if any. -/
def trialCand (structures : List StructEntry) (assonance relaxation : Bool)
    (r : List Char) (e : List PyStr) (s : List Int) (lens : List Int) :
    Option BestStructure :=
  let key := if assonance then ASSONANT_RHYME else CONSONANT_RHYME
  (search_structure structures r lens key).map (fun rk =>
    { name := match structures.get? rk with
              | some en => en.name
              | none => [],
      rank := rk,
      rhyme := r,
      endings := e,
      endings_stress := s,
      rhyme_type := key,
      rhyme_relaxation := relaxation })

/-- One trial of `analyze_rhyme` equals the `arUpdate` of its candidate,
threading the mutated endings. -/
theorem analyzeTrial_eq (structures : List StructEntry) (lines : List RhythmResult)
    (offset : Option Int) (br : Nat) (bs : Option BestStructure)
    (se se2 : List StressedEnding) (a rel : Bool) (r : List Char) (e : List PyStr)
    (s : List Int) (lens : List Int)
    (hgr : get_rhymes se a rel offset none = Except.ok (r, e, s, se2))
    (hL : exceptMapM rhythmLength lines = Except.ok lens) :
    analyzeTrial structures lines offset (br, bs, se) (a, rel) =
      Except.ok ((arUpdate (br, bs) (trialCand structures a rel r e s lens)).1,
        (arUpdate (br, bs) (trialCand structures a rel r e s lens)).2, se2) := by
  unfold analyzeTrial
  dsimp only
  rw [hgr]
  simp only [except_bind_ok]
  rw [hL]
  simp only [except_bind_ok]
  rcases hs : search_structure structures r lens (if a then ASSONANT_RHYME else CONSONANT_RHYME)
      with _ | rk
  · simp [trialCand, arUpdate, hs]
  · simp only [trialCand, arUpdate, hs, Option.map_some]
    by_cases hlt : rk < br
    · rw [if_pos hlt]
      simp [if_pos hlt]
    · rw [if_neg hlt]
      simp [if_neg hlt]

/-- Folding `arUpdate` keeps the first candidate that attains the overall
minimum rank: either nothing beat the initial threshold, or the result is
a candidate whose rank is minimal, beats the threshold, and strictly beats
every earlier candidate. -/
theorem arUpdate_fold_spec : ∀ (cands : List (Option BestStructure)) (br : Nat)
    (bs : Option BestStructure),
    (List.foldl arUpdate (br, bs) cands = (br, bs) ∧
      ∀ b : BestStructure, some b ∈ cands → br ≤ b.rank) ∨
    (∃ t b, (List.foldl arUpdate (br, bs) cands).1 = b.rank ∧
      (List.foldl arUpdate (br, bs) cands).2 = some b ∧
      cands.get? t = some (some b) ∧ b.rank < br ∧
      (∀ c : BestStructure, some c ∈ cands → b.rank ≤ c.rank) ∧
      (∀ k, k < t → ∀ c : BestStructure, cands.get? k = some (some c) →
        b.rank < c.rank)) := by
  intro cands
  induction cands with
  | nil =>
    intro br bs
    left
    exact ⟨rfl, fun b hb => absurd hb (List.not_mem_nil (some b))⟩
  | cons a rest ih =>
    intro br bs
    match a with
    | none =>
      rcases ih br bs with ⟨heq, hall⟩ | ⟨t, b, h1, h2, h3, h4, h5, h6⟩
      · left
        refine ⟨heq, fun b hb => ?_⟩
        rcases List.mem_cons.mp hb with h | h
        · cases h
        · exact hall b h
      · right
        refine ⟨t + 1, b, h1, h2, h3, h4, fun c hc => ?_, fun k hk c hkc => ?_⟩
        · rcases List.mem_cons.mp hc with h | h
          · cases h
          · exact h5 c h
        · match k, hkc with
          | 0, hkc => cases hkc
          | k + 1, hkc => exact h6 k (by omega) c hkc
    | some c0 =>
      by_cases hlt : c0.rank < br
      · have hstep : arUpdate (br, bs) (some c0) = (c0.rank, some c0) := by
          simp [arUpdate, hlt]
        rcases ih c0.rank (some c0) with ⟨heq, hall⟩ | ⟨t, b, h1, h2, h3, h4, h5, h6⟩
        · right
          refine ⟨0, c0, ?_, ?_, rfl, hlt, fun c hc => ?_, fun k hk c hkc => ?_⟩
          · show (List.foldl arUpdate (arUpdate (br, bs) (some c0)) rest).1 = c0.rank
            rw [hstep, heq]
          · show (List.foldl arUpdate (arUpdate (br, bs) (some c0)) rest).2 = some c0
            rw [hstep, heq]
          · rcases List.mem_cons.mp hc with h | h
            · cases h
              exact Nat.le_refl c0.rank
            · exact hall c h
          · omega
        · right
          refine ⟨t + 1, b, ?_, ?_, h3, Nat.lt_trans h4 hlt, fun c hc => ?_,
            fun k hk c hkc => ?_⟩
          · show (List.foldl arUpdate (arUpdate (br, bs) (some c0)) rest).1 = b.rank
            rw [hstep]
            exact h1
          · show (List.foldl arUpdate (arUpdate (br, bs) (some c0)) rest).2 = some b
            rw [hstep]
            exact h2
          · rcases List.mem_cons.mp hc with h | h
            · cases h
              exact Nat.le_of_lt h4
            · exact h5 c h
          · match k, hkc with
            | 0, hkc =>
              cases hkc
              exact h4
            | k + 1, hkc => exact h6 k (by omega) c hkc
      · have hstep : arUpdate (br, bs) (some c0) = (br, bs) := by
          simp [arUpdate, hlt]
        rcases ih br bs with ⟨heq, hall⟩ | ⟨t, b, h1, h2, h3, h4, h5, h6⟩
        · left
          constructor
          · show List.foldl arUpdate (arUpdate (br, bs) (some c0)) rest = (br, bs)
            rw [hstep, heq]
          · intro b hb
            rcases List.mem_cons.mp hb with h | h
            · cases h
              exact Nat.le_of_not_lt hlt
            · exact hall b h
        · right
          refine ⟨t + 1, b, ?_, ?_, h3, h4, fun c hc => ?_, fun k hk c hkc => ?_⟩
          · show (List.foldl arUpdate (arUpdate (br, bs) (some c0)) rest).1 = b.rank
            rw [hstep]
            exact h1
          · show (List.foldl arUpdate (arUpdate (br, bs) (some c0)) rest).2 = some b
            rw [hstep]
            exact h2
          · rcases List.mem_cons.mp hc with h | h
            · cases h
              exact Nat.le_of_lt (Nat.lt_of_lt_of_le h4 (Nat.le_of_not_lt hlt))
            · exact h5 c h
          · match k, hkc with
            | 0, hkc =>
              cases hkc
              exact Nat.lt_of_lt_of_le h4 (Nat.le_of_not_lt hlt)
            | k + 1, hkc => exact h6 k (by omega) c hkc

/-- `search_structure` characterised: it returns `i` exactly when entry
`i` passes all three tests and every earlier entry fails one. -/
theorem search_structure_spec (structures : List StructEntry) (rhyme : PyStr)
    (ls : List Int) (key : PyStr) (i : Nat) :
    search_structure structures rhyme ls key = some i ↔
      ((∃ en, structures.get? i = some en ∧
          ((en.key == key) && en.fullmatch rhyme && en.func ls) = true) ∧
        ∀ k, k < i → ∀ en, structures.get? k = some en →
          ((en.key == key) && en.fullmatch rhyme && en.func ls) = false) := by
  unfold search_structure
  rw [List.findIdx?_eq_some_iff_getElem]
  constructor
  · rintro ⟨h, hp, hprev⟩
    refine ⟨⟨structures.get ⟨i, h⟩, ?_, hp⟩, fun k hk en hen => ?_⟩
    · exact (List.get?_eq_get h).symm ▸ rfl
    · have hkl : k < structures.length := Nat.lt_trans hk h
      have : structures.get ⟨k, hkl⟩ = en := by
        have := List.get?_eq_get hkl
        rw [hen] at this
        exact (Option.some.injEq _ _).mp this.symm
      have hnp := hprev k hk
      have hg : structures[k] = en := this
      rw [hg] at hnp
      exact Bool.eq_false_iff.mpr hnp
  · rintro ⟨⟨en, hen, hp⟩, hprev⟩
    obtain ⟨h, hget⟩ := List.get?_eq_some.mp hen
    refine ⟨h, ?_, fun j hj => ?_⟩
    · show ((fun e => (e.key == key) && e.fullmatch rhyme && e.func ls)
        (structures.get ⟨i, h⟩)) = true
      rw [hget]
      exact hp
    · have hjl : j < structures.length := Nat.lt_trans hj h
      have hj2 := hprev j hj (structures.get ⟨j, hjl⟩) (List.get?_eq_get hjl)
      show ¬((fun e => (e.key == key) && e.fullmatch rhyme && e.func ls)
        (structures.get ⟨j, hjl⟩)) = true
      simp only [hj2]
      exact Bool.false_ne_true

/-- A found structure index is within the catalog. -/
theorem search_structure_lt (structures : List StructEntry) (rhyme : PyStr)
    (ls : List Int) (key : PyStr) (i : Nat)
    (h : search_structure structures rhyme ls key = some i) :
    i < structures.length := by
  unfold search_structure at h
  obtain ⟨hlt, -, -⟩ := List.findIdx?_eq_some_iff_getElem.mp h
  exact hlt

/-- A trial's candidate always ranks within the catalog. -/
theorem trialCand_rank_lt (structures : List StructEntry) (a rel : Bool)
    (r : List Char) (e : List PyStr) (s : List Int) (lens : List Int)
    (b : BestStructure) (h : trialCand structures a rel r e s lens = some b) :
    b.rank < structures.length := by
  simp only [trialCand] at h
  rcases hs : search_structure structures r lens
      (if a then ASSONANT_RHYME else CONSONANT_RHYME) with _ | rk
  · rw [hs] at h
    exact Option.noConfusion h
  · rw [hs] at h
    injection h with h2
    subst h2
    exact search_structure_lt structures r lens _ rk hs

/-- Claim C8: within one trial, `search_structure` picks the first catalog
entry (in declared order) whose rhyme type matches, whose pattern fully
matches the joined letter string, and whose length predicate holds (first
conjunct); across the four `(assonance, relaxation)` trials, evaluated as
consonant-relaxed, consonant-strict, assonant-relaxed, assonant-strict,
`analyze_rhyme` returns the candidate of minimal catalog rank, and on
equal ranks the one found first in trial order (second conjunct: every
earlier trial's candidate ranks strictly higher, every candidate ranks at
least as high).  The hypotheses name the four trials' rhyme outputs on the
successively mutated endings. -/
theorem claim_C8 (structures : List StructEntry) (lines : List RhythmResult)
    (offset : Option Int) (se0 se1 se2 se3 se4 : List StressedEnding)
    (r1 r2 r3 r4 : List Char) (e1 e2 e3 e4 : List PyStr)
    (s1 s2 s3 s4 : List Int) (lens : List Int)
    (hse : get_stressed_endings lines = Except.ok se0)
    (hL : exceptMapM rhythmLength lines = Except.ok lens)
    (h1 : get_rhymes se0 false true offset none = Except.ok (r1, e1, s1, se1))
    (h2 : get_rhymes se1 false false offset none = Except.ok (r2, e2, s2, se2))
    (h3 : get_rhymes se2 true true offset none = Except.ok (r3, e3, s3, se3))
    (h4 : get_rhymes se3 true false offset none = Except.ok (r4, e4, s4, se4)) :
    (∀ (rhyme : PyStr) (ls : List Int) (key : PyStr) (i : Nat),
      search_structure structures rhyme ls key = some i ↔
        ((∃ en, structures.get? i = some en ∧
            ((en.key == key) && en.fullmatch rhyme && en.func ls) = true) ∧
          ∀ k, k < i → ∀ en, structures.get? k = some en →
            ((en.key == key) && en.fullmatch rhyme && en.func ls) = false)) ∧
    ∃ res, analyze_rhyme structures lines offset = Except.ok res ∧
      ((res = none ∧ ∀ b : BestStructure,
          some b ∈ [trialCand structures false true r1 e1 s1 lens,
                    trialCand structures false false r2 e2 s2 lens,
                    trialCand structures true true r3 e3 s3 lens,
                    trialCand structures true false r4 e4 s4 lens] → False) ∨
        (∃ t b, res = some b ∧
          [trialCand structures false true r1 e1 s1 lens,
           trialCand structures false false r2 e2 s2 lens,
           trialCand structures true true r3 e3 s3 lens,
           trialCand structures true false r4 e4 s4 lens].get? t = some (some b) ∧
          (∀ c : BestStructure,
            some c ∈ [trialCand structures false true r1 e1 s1 lens,
                      trialCand structures false false r2 e2 s2 lens,
                      trialCand structures true true r3 e3 s3 lens,
                      trialCand structures true false r4 e4 s4 lens] →
              b.rank ≤ c.rank) ∧
          (∀ k, k < t → ∀ c : BestStructure,
            [trialCand structures false true r1 e1 s1 lens,
             trialCand structures false false r2 e2 s2 lens,
             trialCand structures true true r3 e3 s3 lens,
             trialCand structures true false r4 e4 s4 lens].get? k =
               some (some c) → b.rank < c.rank))) := by
  refine ⟨fun rhyme ls key i => search_structure_spec structures rhyme ls key i, ?_⟩
  have heval : analyze_rhyme structures lines offset =
      Except.ok ((List.foldl arUpdate (structures.length, none)
        [trialCand structures false true r1 e1 s1 lens,
         trialCand structures false false r2 e2 s2 lens,
         trialCand structures true true r3 e3 s3 lens,
         trialCand structures true false r4 e4 s4 lens]).2) := by
    unfold analyze_rhyme
    rw [hse]
    simp only [except_bind_ok]
    simp only [rhymeTrials, List.foldlM_cons, List.foldlM_nil]
    rw [analyzeTrial_eq structures lines offset structures.length none se0 se1
      false true r1 e1 s1 lens h1 hL]
    simp only [except_bind_ok]
    rw [analyzeTrial_eq structures lines offset _ _ se1 se2 false false r2 e2 s2
      lens h2 hL]
    simp only [except_bind_ok]
    rw [analyzeTrial_eq structures lines offset _ _ se2 se3 true true r3 e3 s3
      lens h3 hL]
    simp only [except_bind_ok]
    rw [analyzeTrial_eq structures lines offset _ _ se3 se4 true false r4 e4 s4
      lens h4 hL]
    simp only [except_bind_ok]
    rfl
  refine ⟨_, heval, ?_⟩
  rcases arUpdate_fold_spec
      [trialCand structures false true r1 e1 s1 lens,
       trialCand structures false false r2 e2 s2 lens,
       trialCand structures true true r3 e3 s3 lens,
       trialCand structures true false r4 e4 s4 lens] structures.length none
    with ⟨heq, hall⟩ | ⟨t, b, hh1, hh2, hh3, hh4, hh5, hh6⟩
  · left
    constructor
    · rw [heq]
    · intro b hb
      have hrank : b.rank < structures.length := by
        rcases List.mem_cons.mp hb with h | hb2
        · exact trialCand_rank_lt structures false true r1 e1 s1 lens b h.symm
        · rcases List.mem_cons.mp hb2 with h | hb3
          · exact trialCand_rank_lt structures false false r2 e2 s2 lens b h.symm
          · rcases List.mem_cons.mp hb3 with h | hb4
            · exact trialCand_rank_lt structures true true r3 e3 s3 lens b h.symm
            · rcases List.mem_cons.mp hb4 with h | hb5
              · exact trialCand_rank_lt structures true false r4 e4 s4 lens b h.symm
              · exact absurd hb5 (List.not_mem_nil (some b))
      exact absurd (hall b hb) (Nat.not_le_of_lt hrank)
  · right
    exact ⟨t, b, hh2, hh3, hh5, hh6⟩

/-- A one-line poem with the `length` key present inside `rhythm` (the
shape `analyze_rhyme` requires), used as C8's witness input. -/
def c8Line : RhythmResult :=
  { phonological_groups := [{ syllable := pys "sol", is_stressed := true }],
    rhythm := some { rhythmical_stress := RhythmStress.patterned (pys "+-"),
                     type? := some (pys "pattern"), length? := some 2 },
    rhythmical_length := 2 }

/-- Witness for C8 on the one-line poem `sol` against the empty catalog:
each trial produces the unrhymed letter string `-`, no structure matches,
and `analyze_rhyme` returns `None`. -/
theorem claim_C8_witness :
    (get_stressed_endings [c8Line] = Except.ok [([pys "sol"], 1, -1)]) ∧
    (exceptMapM rhythmLength [c8Line] = Except.ok [2]) ∧
    (get_rhymes [([pys "sol"], 1, -1)] false true none none =
      Except.ok (pys "-", [[]], [0], [([pys "SOL"], 1, -1)])) ∧
    (get_rhymes [([pys "SOL"], 1, -1)] false false none none =
      Except.ok (pys "-", [[]], [0], [([pys "SOL"], 1, -1)])) ∧
    (get_rhymes [([pys "SOL"], 1, -1)] true true none none =
      Except.ok (pys "-", [[]], [0], [([pys "SOL"], 1, -1)])) ∧
    (get_rhymes [([pys "SOL"], 1, -1)] true false none none =
      Except.ok (pys "-", [[]], [0], [([pys "SOL"], 1, -1)])) ∧
    ((∀ (rhyme : PyStr) (ls : List Int) (key : PyStr) (i : Nat),
      search_structure [] rhyme ls key = some i ↔
        ((∃ en, ([] : List StructEntry).get? i = some en ∧
            ((en.key == key) && en.fullmatch rhyme && en.func ls) = true) ∧
          ∀ k, k < i → ∀ en, ([] : List StructEntry).get? k = some en →
            ((en.key == key) && en.fullmatch rhyme && en.func ls) = false)) ∧
    ∃ res, analyze_rhyme [] [c8Line] none = Except.ok res ∧
      ((res = none ∧ ∀ b : BestStructure,
          some b ∈ [trialCand [] false true (pys "-") [[]] [0] [2],
                    trialCand [] false false (pys "-") [[]] [0] [2],
                    trialCand [] true true (pys "-") [[]] [0] [2],
                    trialCand [] true false (pys "-") [[]] [0] [2]] → False) ∨
        (∃ t b, res = some b ∧
          [trialCand [] false true (pys "-") [[]] [0] [2],
           trialCand [] false false (pys "-") [[]] [0] [2],
           trialCand [] true true (pys "-") [[]] [0] [2],
           trialCand [] true false (pys "-") [[]] [0] [2]].get? t = some (some b) ∧
          (∀ c : BestStructure,
            some c ∈ [trialCand [] false true (pys "-") [[]] [0] [2],
                      trialCand [] false false (pys "-") [[]] [0] [2],
                      trialCand [] true true (pys "-") [[]] [0] [2],
                      trialCand [] true false (pys "-") [[]] [0] [2]] →
              b.rank ≤ c.rank) ∧
          (∀ k, k < t → ∀ c : BestStructure,
            [trialCand [] false true (pys "-") [[]] [0] [2],
             trialCand [] false false (pys "-") [[]] [0] [2],
             trialCand [] true true (pys "-") [[]] [0] [2],
             trialCand [] true false (pys "-") [[]] [0] [2]].get? k =
               some (some c) → b.rank < c.rank)))) :=
  ⟨by rfl, by rfl, by rfl, by rfl, by rfl, by rfl,
    claim_C8 [] [c8Line] none
      [([pys "sol"], 1, -1)] [([pys "SOL"], 1, -1)] [([pys "SOL"], 1, -1)]
      [([pys "SOL"], 1, -1)] [([pys "SOL"], 1, -1)]
      (pys "-") (pys "-") (pys "-") (pys "-")
      [[]] [[]] [[]] [[]]
      [0] [0] [0] [0] [2]
      (by rfl) (by rfl) (by rfl) (by rfl) (by rfl) (by rfl)⟩
